import Mathlib

/-!
Shallow embedding of the SMA16 assembler core (`sma16asm.py`) and proofs
about its claimed behaviour.  Python machine integers are modelled as `Nat`
(`&`, `|`, `<<`, `>>` become `&&&`, `|||`, `<<<`, `>>>`), Python `dict`s as
insertion-ordered association lists, Python exceptions as an `Except` error
type distinguishing `AssemblyError` from builtin exception classes
(`AssertionError`, `ValueError`, `IndexError`, `struct.error`).
-/

namespace SMA

/-- The error channel: `assemblyError` models the repo's `AssemblyError`
class (with its message); the other constructors model Python builtin
exceptions that the assembler does not catch.  `evalEscape` stands for
an exception other than `SyntaxError` escaping the `eval` of a
string/character token (`NameError`, `TypeError`, ...), which
`parse_value` does not catch either. -/
inductive AsmErr where
  | assemblyError (msg : String)
  | assertionError
  | valueError
  | indexError
  | structError
  | typeError
  | evalEscape
deriving DecidableEq, Repr

/-- A Python value of type `Union[int, str]`. -/
inductive PyVal where
  | int (n : Nat)
  | str (s : String)
deriving DecidableEq, Repr

/-- `class Instruction(IntEnum)` from `sma16asm.py` (opcodes 0x1 and 0xC
are unused and have no member). -/
inductive Instruction where
  | HALT | JUMP | JUMPZ | LOAD | STORE | LSHFT | RSHFT
  | XOR | AND | SFULL | ADD | POP | PUSH | NOOP
deriving DecidableEq, Repr

/-- The numeric value of each `Instruction` member. -/
def Instruction.toNat : Instruction → Nat
  | .HALT => 0x0
  | .JUMP => 0x2
  | .JUMPZ => 0x3
  | .LOAD => 0x4
  | .STORE => 0x5
  | .LSHFT => 0x6
  | .RSHFT => 0x7
  | .XOR => 0x8
  | .AND => 0x9
  | .SFULL => 0xA
  | .ADD => 0xB
  | .POP => 0xD
  | .PUSH => 0xE
  | .NOOP => 0xF

/-- `Instruction[name]` lookup by member name (used for mnemonics). -/
def instructionMembers : List (String × Instruction) :=
  [("HALT", .HALT), ("JUMP", .JUMP), ("JUMPZ", .JUMPZ), ("LOAD", .LOAD),
   ("STORE", .STORE), ("LSHFT", .LSHFT), ("RSHFT", .RSHFT), ("XOR", .XOR),
   ("AND", .AND), ("SFULL", .SFULL), ("ADD", .ADD), ("POP", .POP),
   ("PUSH", .PUSH), ("NOOP", .NOOP)]

/-- `@dataclass ParsedValue`; `type` is the Python tag string. -/
structure ParsedValue where
  type : String
  value : PyVal
deriving DecidableEq, Repr

/-- `@dataclass ParsedInstruction` (Python `section` field is
`sectionName` here, its `labels : Set[str]` is an insertion-ordered
duplicate-free list). -/
structure ParsedInstruction where
  name : String
  value : Option ParsedValue
  labels : List String
  sectionName : String
  line : Nat
deriving DecidableEq, Repr

/-- `@dataclass ParsedDirective`. -/
structure ParsedDirective where
  name : String
  value : Option ParsedValue
  labels : List String
  sectionName : String
  line : Nat
deriving DecidableEq, Repr

/-- `@dataclass ParsedLabel`. -/
structure ParsedLabel where
  name : String
deriving DecidableEq, Repr

/-- `@dataclass Vector` (field `maxLength` is Python's `max_length`). -/
structure Vector where
  address : Nat
  maxLength : Nat
deriving DecidableEq, Repr

/-- `@dataclass Region`; Python fields `start` / `end` are `start` /
`stop` here (`end` is reserved in Lean). -/
structure Region where
  type : String
  start : Nat
  stop : Nat
  count : Nat
deriving DecidableEq, Repr

/-- `@dataclass AddressValue`. -/
structure AddressValue where
  address : Nat
  value : Nat
deriving DecidableEq, Repr

/-- `@dataclass UnresolvedAddressValue`. -/
structure UnresolvedAddressValue where
  address : Nat
  instruction : Instruction
  data : String
deriving DecidableEq, Repr

/-- `@dataclass UnresolvedAddressConstant`. -/
structure UnresolvedAddressConstant where
  address : Nat
  value : String
deriving DecidableEq, Repr

/-- The union of item shapes flowing through the pipeline stages
(Python uses dynamic typing and `isinstance` checks). -/
inductive Item where
  | inst (i : ParsedInstruction)
  | dir (d : ParsedDirective)
  | lbl (l : ParsedLabel)
  | uval (u : UnresolvedAddressValue)
  | uconst (u : UnresolvedAddressConstant)
  | aval (a : AddressValue)
deriving DecidableEq, Repr

/-- A Python `dict` as an insertion-ordered association list:
`d[k] = v` updates the value in place for an existing key and appends a
new key at the end. -/
def dictSet {κ α : Type} [BEq κ] : List (κ × α) → κ → α → List (κ × α)
  | [], k, v => [(k, v)]
  | (k', v') :: rest, k, v =>
    if k' == k then (k', v) :: rest else (k', v') :: dictSet rest k v

/-- `ReferenceTable = Dict[str, int]`. -/
abbrev ReferenceTable := List (String × Nat)

/-- `RegionTable = Dict[str, Region]`. -/
abbrev RegionTable := List (String × Region)

/-- `VECTORS` table (insertion order as in the source). -/
def VECTORS : List (String × Vector) :=
  [("reset", ⟨0x000, 1⟩), ("fault", ⟨0x001, 1⟩), ("software", ⟨0x002, 6⟩)]

/-- `REGISTERS` table. -/
def REGISTERS : List (String × Nat) :=
  [("INTERRUPT_REASON", 0x008), ("INTERRUPT_RETURN", 0x009),
   ("ASCII_OUT", 0x00A), ("SMALL_OUT", 0x00B), ("TERM_CONF", 0x00C),
   ("STACK_SIZE", 0x00D), ("RESERVED1", 0x00E), ("RESERVED2", 0x00F)]

/-- `REGIONS` table: the two pre-registered reserved regions, in the
source's dict-literal (and hence iteration) order. -/
def REGIONS : List (String × Region) :=
  [("configuration", ⟨"reserved", 0x008, 0x00f, 8⟩),
   ("vectors", ⟨"reserved", 0x000, 0x007, 8⟩)]

/-- `CONSTANTS`: vector addresses followed by the register addresses. -/
def CONSTANTS : List (String × Nat) :=
  [("RESET_VECTOR", 0x000), ("FAULT_VECTOR", 0x001),
   ("SOFTWARE_VECTOR", 0x002)] ++ REGISTERS

/-- `transform_character`: the 6-bit "small" character encoding
(`x` is `ord(to_transform[0])`, written inline). -/
def transformCharacter (toTransform : Char) : Except AsmErr Nat :=
  if 65 ≤ toTransform.toNat ∧ toTransform.toNat ≤ 90 then
    .ok ((toTransform.toNat - 65) &&& 0x3f)
  else if 97 ≤ toTransform.toNat ∧ toTransform.toNat ≤ 122 then
    .ok ((toTransform.toNat + 26 - 97) &&& 0x3f)
  else if 48 ≤ toTransform.toNat ∧ toTransform.toNat ≤ 57 then
    .ok ((toTransform.toNat + 52 - 48) &&& 0x3f)
  else if toTransform.toNat = 32 then .ok 62
  else if toTransform.toNat = 95 then .ok 63
  else .error (.assemblyError
    ("character '" ++ String.mk [toTransform] ++ "' cannot be encoded in small encoding"))

/-- Python `s[i]` character indexing on the two leading characters,
raising `IndexError` when the string is too short. -/
def firstTwoChars (s : String) : Except AsmErr (Char × Char) :=
  match s.toList with
  | c1 :: c2 :: _ => .ok (c1, c2)
  | _ => .error .indexError

/-- `serialise_value`: abstract values to raw integers, references kept
as strings. -/
def serialiseValue (value : Option ParsedValue) : Except AsmErr PyVal :=
  match value with
  | none => .ok (.int 0)
  | some v =>
    if v.type = "reference" then .ok v.value
    else if v.type = "integer" then .ok v.value
    else if v.type = "short_string" then
      match v.value with
      | .str s => do
        let (c1, c2) ← firstTwoChars s
        let t1 ← transformCharacter c1
        let t2 ← transformCharacter c2
        .ok (.int ((t1 <<< 6) ||| t2))
      | .int _ => .error (.assemblyError "value of short string was not a string, this is a bug")
    else if v.type = "ascii_string" then
      match v.value with
      | .str s => do
        let (c1, c2) ← firstTwoChars s
        .ok (.int (((c2.toNat <<< 8) &&& 0xff00) ||| (c1.toNat &&& 0x00ff)))
      | .int _ => .error (.assemblyError "value of short string was not a string, this is a bug")
    else if v.type = "short_character" then
      match v.value with
      | .str s =>
        match s.toList with
        | c :: _ => do
          let tu ← transformCharacter '_'
          let tc ← transformCharacter c
          .ok (.int ((tu <<< 6) ||| tc))
        | [] => .error .indexError
      | .int _ => .error (.assemblyError "value of short string was not a string, this is a bug")
    else if v.type = "ascii_character" then
      match v.value with
      | .str s =>
        match s.toList with
        | c :: _ => .ok (.int (c.toNat &&& 0x00ff))
        | [] => .error .indexError
      | .int _ => .error (.assemblyError "value of short string was not a string, this is a bug")
    else .error (.assemblyError ("unknown value to type to serialise " ++ v.type ++ ", this is a bug"))

/-! ### `difflib.get_close_matches` model

`did_you_mean` calls `difflib.get_close_matches(name, keys, n=1, cutoff=0.75)`.
A possibility is kept iff all of `real_quick_ratio`, `quick_ratio` and
`ratio` are `≥ cutoff`; since the first two are upper bounds of `ratio`
this is equivalent to `ratio() ≥ cutoff`.  `ratio` is
`2 * M / (len a + len b)` where `M` is the total size of the matching
blocks computed by `SequenceMatcher` (no junk: the inputs here are far
below the 200-character autojunk threshold).  `find_longest_match`
returns, among all maximal matching blocks, the one starting earliest in
`a` and then earliest in `b`; we compute it by brute force with exactly
that tie-break. -/

/-- Length of the common run at the heads of two character lists. -/
def commonRun : List Char → List Char → Nat
  | x :: xs, y :: ys => if x = y then commonRun xs ys + 1 else 0
  | _, _ => 0

/-- `SequenceMatcher.find_longest_match` over whole sequences: the
triple `(i, j, k)` of the longest match, earliest in `a` then in `b`. -/
def findLongestMatch (a b : List Char) : Nat × Nat × Nat :=
  (List.range (a.length + 1)).foldl
    (fun best i =>
      (List.range (b.length + 1)).foldl
        (fun best j =>
          let k := commonRun (a.drop i) (b.drop j)
          if best.2.2 < k then (i, j, k) else best)
        best)
    (0, 0, 0)

/-- Total size of `SequenceMatcher.get_matching_blocks` (the recursive
split around each longest match), with an explicit recursion-depth fuel
so the definition is structural.  Every recursive call strictly shrinks
`a` (the match has positive size and lies inside `a`), so a fuel of
`a.length + 1` can never run out. -/
def matchingTotalFuel : Nat → List Char → List Char → Nat
  | 0, _, _ => 0
  | fuel + 1, a, b =>
    let r := findLongestMatch a b
    if 0 < r.2.2 ∧ r.1 + r.2.2 ≤ a.length ∧ r.2.1 + r.2.2 ≤ b.length then
      matchingTotalFuel fuel (a.take r.1) (b.take r.2.1) + r.2.2 +
        matchingTotalFuel fuel (a.drop (r.1 + r.2.2)) (b.drop (r.2.1 + r.2.2))
    else 0

/-- See `matchingTotalFuel`. -/
def matchingTotal (a b : List Char) : Nat :=
  matchingTotalFuel (a.length + 1) a b

/-- The fuel of `matchingTotalFuel` is irrelevant once it exceeds the
length of `a`: the fuel-exhausted branch is unreachable. -/
theorem matchingTotalFuel_ample :
    ∀ (f1 : Nat), ∀ (f2 : Nat) (a b : List Char), a.length < f1 → a.length < f2 →
      matchingTotalFuel f1 a b = matchingTotalFuel f2 a b := by
  intro f1
  induction f1 with
  | zero => intro f2 a b h1 _; omega
  | succ f1 ih =>
    intro f2 a b h1 h2
    cases f2 with
    | zero => omega
    | succ f2 =>
      unfold matchingTotalFuel
      by_cases hg : 0 < (findLongestMatch a b).2.2 ∧
          (findLongestMatch a b).1 + (findLongestMatch a b).2.2 ≤ a.length ∧
          (findLongestMatch a b).2.1 + (findLongestMatch a b).2.2 ≤ b.length
      · rw [if_pos hg, if_pos hg]
        have htake : (a.take (findLongestMatch a b).1).length < f1 := by
          rw [List.length_take]
          omega
        have htake2 : (a.take (findLongestMatch a b).1).length < f2 := by
          rw [List.length_take]
          omega
        have hdrop : (a.drop ((findLongestMatch a b).1 + (findLongestMatch a b).2.2)).length < f1 := by
          rw [List.length_drop]
          omega
        have hdrop2 : (a.drop ((findLongestMatch a b).1 + (findLongestMatch a b).2.2)).length < f2 := by
          rw [List.length_drop]
          omega
        rw [ih f2 _ _ htake htake2, ih f2 _ _ hdrop hdrop2]
      · rw [if_neg hg, if_neg hg]

/-- `ratio ≥ 0.75` for possibility `p` against `word`, i.e.
`2*M/(la+lb) ≥ 3/4`, as integers.  `get_close_matches` sets
`seq1` to the possibility (`set_seq1(x)`) and `seq2` to the word
(`set_seq2(word)`), and the matching total is not symmetric, so the
argument order matters (`difflib` defines the ratio to be `1.0` when
both are empty, which the inequality also captures). -/
def similarOK (word p : String) : Bool :=
  3 * (word.length + p.length) ≤ 8 * matchingTotal p.toList word.toList

/-- Comparison used by `heapq.nlargest(1, [(ratio, x) ...])`: the pair
`(ratio of x against word, x)` is strictly greater than
`(ratio of y against word, y)`.  Ratios (with the possibility as
`seq1`, as in `similarOK`) are compared by cross-multiplication of
`2*M/(la+lb)`. -/
def betterMatch (word x y : String) : Bool :=
  let mx := matchingTotal x.toList word.toList
  let my := matchingTotal y.toList word.toList
  let tx := word.length + x.length
  let ty := word.length + y.length
  (my * tx < mx * ty) || (my * tx == mx * ty && decide (y < x))

/-- `heapq.nlargest(1, ...)` over the filtered candidates: the single
largest by `(ratio, string)`. -/
def nlargest1 (word : String) (candidates : List String) : Option String :=
  candidates.foldl
    (fun acc x =>
      match acc with
      | none => some x
      | some b => if betterMatch word x b then some x else some b)
    none

/-- `get_close_matches(word, possibilities, n=1, cutoff=0.75)`: keep
possibilities with ratio ≥ 0.75 and return the single largest by
`(ratio, string)`. -/
def getCloseMatches1 (word : String) (possibilities : List String) : Option String :=
  nlargest1 word (possibilities.filter (similarOK word))

/-- `did_you_mean`: build the optional suggestion suffix. -/
def didYouMean (name : String) (referenceTable : ReferenceTable) : String :=
  match getCloseMatches1 name (referenceTable.map Prod.fst) with
  | some m => ", did you mean " ++ m ++ "?"
  | none => ""

/-- `UnresolvedAddressValue.resolve`. -/
def UnresolvedAddressValue.resolve (self : UnresolvedAddressValue)
    (referenceTable : ReferenceTable) : Except AsmErr AddressValue :=
  match referenceTable.lookup self.data with
  | none => .error (.assemblyError
      ("reference to undefined location " ++ self.data ++ didYouMean self.data referenceTable))
  | some addr =>
    .ok ⟨self.address, (addr &&& 0x0fff) ||| ((self.instruction.toNat <<< 12) &&& 0xf000)⟩

/-- `UnresolvedAddressConstant.resolve`. -/
def UnresolvedAddressConstant.resolve (self : UnresolvedAddressConstant)
    (referenceTable : ReferenceTable) : Except AsmErr AddressValue :=
  match referenceTable.lookup self.value with
  | none => .error (.assemblyError
      ("reference to undefined location " ++ self.value ++ didYouMean self.value referenceTable))
  | some v => .ok ⟨self.address, v⟩

/-! ### Lexing / parsing layer

Python `str.strip`, `str.split`, `str.isdigit`, `str.isalnum`,
`str.isnumeric` are modelled for the ASCII fragment the assembler
exercises (`isalnum`/`isnumeric`/`isdigit` accept some further Unicode
characters in Python; all assembler syntax is ASCII). -/

/-- Python `s.startswith(pre)` as a structural recursion. -/
def startsList : List Char → List Char → Bool
  | _, [] => true
  | [], _ :: _ => false
  | c :: cs, p :: ps => c = p && startsList cs ps

/-- Python `s.startswith(pre)` on strings. -/
def strStarts (s pre : String) : Bool :=
  startsList s.toList pre.toList

/-- Python `str.upper` on one character (ASCII fragment). -/
def pyCharUpper (c : Char) : Char :=
  if 97 ≤ c.toNat ∧ c.toNat ≤ 122 then Char.ofNat (c.toNat - 32) else c

/-- Python `str.upper` (ASCII fragment). -/
def pyToUpper (s : String) : String :=
  String.mk (s.toList.map pyCharUpper)

/-- Python `str.lower` on one character (ASCII fragment). -/
def pyCharLower (c : Char) : Char :=
  if 65 ≤ c.toNat ∧ c.toNat ≤ 90 then Char.ofNat (c.toNat + 32) else c

/-- Python `str.lower` (ASCII fragment). -/
def pyToLower (s : String) : String :=
  String.mk (s.toList.map pyCharLower)

/-- Python `s.split(sep)` for a one-character separator: splits at every
occurrence and keeps empty segments (`"".split(sep) == [""]`). -/
def splitAll (sep : Char) : List Char → List (List Char)
  | [] => [[]]
  | c :: cs =>
    match splitAll sep cs with
    | [] => [[]]
    | h :: t => if c = sep then [] :: h :: t else (c :: h) :: t

/-- Python `str.strip()` on a character list. -/
def trimList (l : List Char) : List Char :=
  ((l.dropWhile Char.isWhitespace).reverse.dropWhile Char.isWhitespace).reverse

theorem length_dropWhile_le (p : Char → Bool) (l : List Char) :
    (l.dropWhile p).length ≤ l.length := by
  induction l with
  | nil => simp [List.dropWhile]
  | cons c cs ih =>
    simp only [List.dropWhile]
    by_cases h : p c
    · simp [h]; omega
    · simp [h]

theorem trimList_length_le (l : List Char) : (trimList l).length ≤ l.length := by
  unfold trimList
  calc ((l.dropWhile Char.isWhitespace).reverse.dropWhile Char.isWhitespace).reverse.length
      = ((l.dropWhile Char.isWhitespace).reverse.dropWhile Char.isWhitespace).length := by
        simp
    _ ≤ (l.dropWhile Char.isWhitespace).reverse.length := length_dropWhile_le _ _
    _ = (l.dropWhile Char.isWhitespace).length := by simp
    _ ≤ l.length := length_dropWhile_le _ _

/-- Split a character list at the first occurrence of `sep`:
`some (before, after)`, or `none` when `sep` does not occur.  For the
first colon this agrees with Python's
`label, *rest = line.split(":")` followed by `":".join(rest)`, and for
the first space with `name, *value = line.split(" ")` followed by
`" ".join(value)`. -/
def splitFirst (sep : Char) : List Char → Option (List Char × List Char)
  | [] => none
  | c :: cs =>
    if c = sep then some ([], cs)
    else (splitFirst sep cs).map (fun p => (c :: p.1, p.2))

theorem splitFirst_length (sep : Char) :
    ∀ l a b : List Char, splitFirst sep l = some (a, b) →
      l.length = a.length + 1 + b.length := by
  intro l
  induction l with
  | nil => intro a b h; simp [splitFirst] at h
  | cons c cs ih =>
    intro a b h
    simp only [splitFirst] at h
    by_cases hc : c = sep
    · rw [if_pos hc] at h
      simp at h
      obtain ⟨rfl, rfl⟩ := h
      simp
      omega
    · rw [if_neg hc] at h
      match hs : splitFirst sep cs with
      | none => rw [hs] at h; simp at h
      | some (a', b') =>
        rw [hs] at h
        simp at h
        obtain ⟨rfl, rfl⟩ := h
        have := ih a' b' hs
        simp [List.length_cons]
        omega

/-- `_is_c_name`: all non-empty underscore-separated segments are
alphanumeric and the first character is not a digit; on the empty string
the subscript `to_test[0]` raises `IndexError` (Python's `and`
short-circuits, so a failed alphanumeric test avoids the subscript). -/
def isCName (toTest : String) : Except AsmErr Bool :=
  if ((splitAll '_' toTest.toList).filter (fun s => s.length > 0)).all
      (fun s => s.all Char.isAlphanum) then
    match toTest.toList with
    | [] => .error .indexError
    | c :: _ => .ok (!c.isDigit)
  else .ok false

/-- Python `str.isdigit` (ASCII fragment). -/
def pyIsDigit (s : String) : Bool :=
  s ≠ "" && s.toList.all Char.isDigit

/-- Value of one hexadecimal digit character. -/
def hexDigitVal? (c : Char) : Option Nat :=
  if c.isDigit then some (c.toNat - 48)
  else if 'a' ≤ c ∧ c ≤ 'f' then some (c.toNat - 97 + 10)
  else if 'A' ≤ c ∧ c ≤ 'F' then some (c.toNat - 65 + 10)
  else none

/-- Value of one binary digit character. -/
def binDigitVal? (c : Char) : Option Nat :=
  if c = '0' then some 0 else if c = '1' then some 1 else none

/-- Value of one decimal digit character. -/
def decDigitVal? (c : Char) : Option Nat :=
  if c.isDigit then some (c.toNat - 48) else none

/-- Continue accumulating an underscore-grouped digit string: single
underscores are allowed strictly between digits (Python `int`
grouping); a trailing or doubled underscore, or a non-digit, is a
`ValueError` (`none`). -/
def groupedValGo (base : Nat) (digit? : Char → Option Nat) : Nat → List Char → Option Nat
  | acc, [] => some acc
  | acc, c :: rest =>
    if c = '_' then
      match rest with
      | c' :: rest' =>
        match digit? c' with
        | some d => groupedValGo base digit? (acc * base + d) rest'
        | none => none
      | [] => none
    else
      match digit? c with
      | some d => groupedValGo base digit? (acc * base + d) rest
      | none => none

/-- An underscore-grouped digit string: it must start with a digit
(`int('_10', b)` is a `ValueError`) and may use single underscores
between digits. -/
def groupedVal (base : Nat) (digit? : Char → Option Nat) : List Char → Option Nat
  | [] => none
  | c :: rest =>
    match digit? c with
    | some d => groupedValGo base digit? d rest
    | none => none

/-- Python `int(s, 16)` on the fragment used here: an optional `0x`/`0X`
prefix — a single underscore may follow it (`int('0x_ff', 16) = 255`) —
and an underscore-grouped string of hexadecimal digits (whitespace and
signs are not modelled; the assembler's tokens are stripped and
unsigned). -/
def intBase16 (s : String) : Except AsmErr Nat :=
  let t :=
    if strStarts s "0x" || strStarts s "0X" then
      match s.toList.drop 2 with
      | '_' :: rest => rest
      | l => l
    else s.toList
  match groupedVal 16 hexDigitVal? t with
  | some n => .ok n
  | none => .error .valueError

/-- Python `int(s, 2)` on the same fragment. -/
def intBase2 (s : String) : Except AsmErr Nat :=
  let t :=
    if strStarts s "0b" || strStarts s "0B" then
      match s.toList.drop 2 with
      | '_' :: rest => rest
      | l => l
    else s.toList
  match groupedVal 2 binDigitVal? t with
  | some n => .ok n
  | none => .error .valueError

/-- Python `int(s, 10)` on the same fragment. -/
def intBase10 (s : String) : Except AsmErr Nat :=
  match groupedVal 10 decDigitVal? s.toList with
  | some n => .ok n
  | none => .error .valueError

/-- The outcome of `eval` on the text after the `s`/`a` marker of a
string or character token. -/
inductive EvalRes where
  /-- `eval` produced this `str`. -/
  | val (s : String)
  /-- `SyntaxError` — caught by `parse_value` and turned into an
  `AssemblyError`. -/
  | syn
  /-- The literal is followed by further expression text: `eval`
  evaluates an arbitrary expression there and its exceptions
  (`NameError`, `TypeError`, ...) escape `parse_value`. -/
  | expr
deriving DecidableEq, Repr

/-- Is `c` an octal digit? -/
def isOctal (c : Char) : Bool :=
  48 ≤ c.toNat && c.toNat ≤ 55

/-- Decode one escape sequence after the backslash (`e` is the first
character after it): the decoded characters and the remaining input, or
`none` for a malformed escape (`SyntaxError`).  Named escapes
(`\N{...}`, which need the Unicode name database) and lone-surrogate
`\u`/`\U` values (which Python admits into its strings but which are
not Unicode scalar values, hence not Lean `Char`s) are outside the
modelled fragment and conservatively mapped to `none`; Python's
"unknown escape" rule keeps the backslash and the character. -/
def decodeEscape (e : Char) (rest : List Char) : Option (List Char × List Char) :=
  if e = 'n' then some ([Char.ofNat 10], rest)
  else if e = 't' then some ([Char.ofNat 9], rest)
  else if e = 'r' then some ([Char.ofNat 13], rest)
  else if e = 'a' then some ([Char.ofNat 7], rest)
  else if e = 'b' then some ([Char.ofNat 8], rest)
  else if e = 'f' then some ([Char.ofNat 12], rest)
  else if e = 'v' then some ([Char.ofNat 11], rest)
  else if e = '\\' ∨ e = '"' ∨ e = Char.ofNat 39 then some ([e], rest)
  else if isOctal e then
    match rest with
    | o2 :: r2 =>
      if isOctal o2 then
        match r2 with
        | o3 :: r3 =>
          if isOctal o3 then
            some ([Char.ofNat ((e.toNat - 48) * 64 + (o2.toNat - 48) * 8 + (o3.toNat - 48))], r3)
          else some ([Char.ofNat ((e.toNat - 48) * 8 + (o2.toNat - 48))], r2)
        | [] => some ([Char.ofNat ((e.toNat - 48) * 8 + (o2.toNat - 48))], r2)
      else some ([Char.ofNat (e.toNat - 48)], rest)
    | [] => some ([Char.ofNat (e.toNat - 48)], rest)
  else if e = 'x' then
    match rest with
    | h1 :: h2 :: r2 =>
      match hexDigitVal? h1, hexDigitVal? h2 with
      | some d1, some d2 => some ([Char.ofNat (d1 * 16 + d2)], r2)
      | _, _ => none
    | _ => none
  else if e = 'u' then
    match rest with
    | h1 :: h2 :: h3 :: h4 :: r2 =>
      match hexDigitVal? h1, hexDigitVal? h2, hexDigitVal? h3, hexDigitVal? h4 with
      | some d1, some d2, some d3, some d4 =>
        let v := ((d1 * 16 + d2) * 16 + d3) * 16 + d4
        if 0xd800 ≤ v ∧ v ≤ 0xdfff then none else some ([Char.ofNat v], r2)
      | _, _, _, _ => none
    | _ => none
  else if e = 'U' then
    match rest with
    | h1 :: h2 :: h3 :: h4 :: h5 :: h6 :: h7 :: h8 :: r2 =>
      match hexDigitVal? h1, hexDigitVal? h2, hexDigitVal? h3, hexDigitVal? h4,
            hexDigitVal? h5, hexDigitVal? h6, hexDigitVal? h7, hexDigitVal? h8 with
      | some d1, some d2, some d3, some d4, some d5, some d6, some d7, some d8 =>
        let v := ((((((d1 * 16 + d2) * 16 + d3) * 16 + d4) * 16 + d5) * 16 + d6) * 16 + d7) * 16 + d8
        if (0xd800 ≤ v ∧ v ≤ 0xdfff) ∨ 0x110000 ≤ v then none else some ([Char.ofNat v], r2)
      | _, _, _, _, _, _, _, _ => none
    | _ => none
  else if e = 'N' then none
  else some ([Char.ofNat 92, e], rest)

/-- Scan the interior of a quoted literal whose opening quote `q` has
been consumed, processing escape sequences: the decoded content and the
text after the closing quote, or `none` for an unterminated literal or
a malformed escape.  The fuel counts consumed characters, so
`l.length + 1` can never run out. -/
def scanLitFuel : Nat → Char → List Char → Option (List Char × List Char)
  | 0, _, _ => none
  | fuel + 1, q, l =>
    match l with
    | [] => none
    | c :: rest =>
      if c = q then some ([], rest)
      else if c = Char.ofNat 92 then
        match rest with
        | [] => none
        | e :: rest' =>
          match decodeEscape e rest' with
          | none => none
          | some (cs, rem) => (scanLitFuel fuel q rem).map (fun p => (cs ++ p.1, p.2))
      else (scanLitFuel fuel q rest).map (fun p => (c :: p.1, p.2))

/-- The implicit-concatenation loop of a Python string expression:
after one literal, whitespace and further adjacent literals may follow
(`eval('"ab" \x27cd\x27') == "abcd"`).  An adjacent identifier or
number is a `SyntaxError`; any other trailing text starts a larger
expression, modelled as `EvalRes.expr` (for some such expressions
CPython would instead produce a value or a `SyntaxError`; the common
ones — `+ name`, indexing undefined names — raise exceptions that
escape `parse_value`). -/
def evalConcatFuel : Nat → List Char → List Char → EvalRes
  | 0, _, _ => .syn
  | fuel + 1, acc, l =>
    match l.dropWhile Char.isWhitespace with
    | [] => .val (String.mk acc)
    | c :: rest =>
      if c = '"' ∨ c = Char.ofNat 39 then
        match scanLitFuel (rest.length + 1) c rest with
        | none => .syn
        | some (content, aft) => evalConcatFuel fuel (acc ++ content) aft
      else if c.isAlphanum || c = '_' then .syn
      else .expr

/-- Model of `eval` applied to the text after the `s`/`a` marker: the
token starts at its opening quote (guaranteed by the `startswith`
checks in `parse_value`). -/
def evalPyLiteral (s : String) : EvalRes :=
  match s.toList with
  | [] => .syn
  | q :: rest =>
    if q = '"' ∨ q = Char.ofNat 39 then
      match scanLitFuel (rest.length + 1) q rest with
      | none => .syn
      | some (content, aft) => evalConcatFuel (aft.length + 1) content aft
    else .syn

/-- `"s'"` / `"a'"` token markers (built without apostrophe literals). -/
def sQuoteTok : String := String.mk ['s', Char.ofNat 39]

/-- See `sQuoteTok`. -/
def aQuoteTok : String := String.mk ['a', Char.ofNat 39]

/-- `parse_value` after the initial `strip` (the token `toParse` is
already trimmed). -/
def parseValueCore (toParse : String) (lineNumber : Nat) : Except AsmErr (Option ParsedValue) :=
  if toParse = "" then .ok none
  else if pyToLower toParse = "?" then .ok (some ⟨"integer", .int 0⟩)
  else if strStarts toParse "@" then
    match isCName (String.mk (toParse.toList.drop 1)) with
    | .error e => .error e
    | .ok false => .error (.assemblyError
        ("reference name invalid " ++ String.mk (toParse.toList.drop 1) ++ " on line " ++ toString lineNumber))
    | .ok true => .ok (some ⟨"reference", .str (String.mk (toParse.toList.drop 1))⟩)
  else if strStarts toParse "0x" then
    (intBase16 toParse).map (fun n => some ⟨"integer", .int n⟩)
  else if strStarts toParse "0b" then
    (intBase2 toParse).map (fun n => some ⟨"integer", .int n⟩)
  else if pyIsDigit toParse then
    (intBase10 toParse).map (fun n => some ⟨"integer", .int n⟩)
  else if strStarts toParse "s\"" then
    match evalPyLiteral (String.mk (toParse.toList.drop 1)) with
    | .syn => .error (.assemblyError
        ("invalid small string " ++ String.mk (toParse.toList.drop 1) ++ " on line " ++ toString lineNumber))
    | .expr => .error .evalEscape
    | .val v =>
      if v.length ≠ 2 then .error (.assemblyError
          ("invalid small string value " ++ String.mk (toParse.toList.drop 1) ++ " on line " ++ toString lineNumber))
      else .ok (some ⟨"short_string", .str v⟩)
  else if strStarts toParse "a\"" then
    match evalPyLiteral (String.mk (toParse.toList.drop 1)) with
    | .syn => .error (.assemblyError
        ("invalid ascii string " ++ String.mk (toParse.toList.drop 1) ++ " on line " ++ toString lineNumber))
    | .expr => .error .evalEscape
    | .val v =>
      if v.length ≠ 2 then .error (.assemblyError
          ("invalid ascii string value " ++ String.mk (toParse.toList.drop 1) ++ " on line " ++ toString lineNumber))
      else .ok (some ⟨"ascii_string", .str v⟩)
  else if strStarts toParse sQuoteTok then
    match evalPyLiteral (String.mk (toParse.toList.drop 1)) with
    | .syn => .error (.assemblyError
        ("invalid short character " ++ String.mk (toParse.toList.drop 1) ++ " on line " ++ toString lineNumber))
    | .expr => .error .evalEscape
    | .val v =>
      if v.length ≠ 1 then .error (.assemblyError
          ("invalid short character value " ++ String.mk (toParse.toList.drop 1) ++ " on line " ++ toString lineNumber))
      else .ok (some ⟨"short_character", .str v⟩)
  else if strStarts toParse aQuoteTok then
    match evalPyLiteral (String.mk (toParse.toList.drop 1)) with
    | .syn => .error (.assemblyError
        ("invalid ascii character " ++ String.mk (toParse.toList.drop 1) ++ " on line " ++ toString lineNumber))
    | .expr => .error .evalEscape
    | .val v =>
      if v.length ≠ 1 then .error (.assemblyError
          ("invalid ascii character value " ++ String.mk (toParse.toList.drop 1) ++ " on line " ++ toString lineNumber))
      else .ok (some ⟨"ascii_character", .str v⟩)
  else .ok (some ⟨"raw_value", .str toParse⟩)

/-- `parse_value`: strip the token, then dispatch on its shape. -/
def parseValue (toParse0 : String) (lineNumber : Nat) : Except AsmErr (Option ParsedValue) :=
  parseValueCore (String.mk (trimList toParse0.toList)) lineNumber

/-- The label-peeling loop of `parse_line`, with an explicit fuel so
the recursion is structural: repeatedly split at the leftmost colon; a
valid identifier prefix becomes a `ParsedLabel` and scanning continues
on the stripped remainder; an invalid prefix (or no colon) stops the
loop.  Each peeled label consumes at least two characters of the line
(the non-empty label and its colon), so a fuel of `l.length + 1` can
never run out. -/
def peelFuel : Nat → List Char → Except AsmErr (List Item × List Char)
  | 0, l => .ok ([], l)
  | fuel + 1, l =>
    match splitFirst ':' l with
    | none => .ok ([], l)
    | some (label, rest) =>
      match isCName (String.mk label) with
      | .error e => .error e
      | .ok false => .ok ([], l)
      | .ok true => do
        let (items, final) ← peelFuel fuel (trimList rest)
        .ok (Item.lbl ⟨String.mk label⟩ :: items, final)

/-- See `peelFuel`. -/
def peelLabels (l : List Char) : Except AsmErr (List Item × List Char) :=
  peelFuel (l.length + 1) l

/-- The fuel of `peelFuel` is irrelevant once it exceeds the line
length: the fuel-exhausted branch is unreachable. -/
theorem peelFuel_ample :
    ∀ (f1 : Nat), ∀ (f2 : Nat) (l : List Char), l.length < f1 → l.length < f2 →
      peelFuel f1 l = peelFuel f2 l := by
  intro f1
  induction f1 with
  | zero => intro f2 l h1 _; omega
  | succ f1 ih =>
    intro f2 l h1 h2
    cases f2 with
    | zero => omega
    | succ f2 =>
      unfold peelFuel
      cases hs : splitFirst ':' l with
      | none => rfl
      | some p =>
        obtain ⟨label, rest⟩ := p
        dsimp only []
        cases hc : isCName (String.mk label) with
        | error e => rfl
        | ok b =>
          cases b with
          | false => rfl
          | true =>
            dsimp only []
            have hlen := splitFirst_length ':' l label rest hs
            have htrim := trimList_length_le rest
            rw [ih f2 (trimList rest) (by omega) (by omega)]

/-- The `name, *value = line.split(" ")` step: first token and the
space-joined remainder. -/
def splitNameValue (l : List Char) : String × String :=
  match splitFirst ' ' l with
  | none => (String.mk l, "")
  | some (n, v) => (String.mk n, String.mk v)

/-- `parse_line`. -/
def parseLine (line : String) (lineNumber : Nat) : Except AsmErr (List Item) := do
  let l := trimList line.toList
  if l.isEmpty || l.head? = some '#' then
    .ok []
  else do
    let (labels, rest) ← peelLabels l
    if rest.head? = some '.' then
      let (name, valueStr) := splitNameValue rest
      let v ← parseValue valueStr lineNumber
      .ok (labels ++ [.dir ⟨name, v, [], "any", lineNumber⟩])
    else if !rest.isEmpty then
      let (name, valueStr) := splitNameValue rest
      let v ← parseValue valueStr lineNumber
      .ok (labels ++ [.inst ⟨name, v, [], "any", lineNumber⟩])
    else
      .ok labels

/-- `parse_lines`: parse every line, numbering from 1. -/
def parseLines (lines : List String) : Except AsmErr (List Item) :=
  go 1 lines
where
  /-- Recursion over the remaining lines. -/
  go : Nat → List String → Except AsmErr (List Item)
  | _, [] => .ok []
  | n, l :: ls => do
    let items ← parseLine l n
    let rest ← go (n + 1) ls
    .ok (items ++ rest)

/-! ### Pipeline stages -/

/-- `set.add` on the insertion-ordered model of a Python `set`. -/
def setAdd (l : List String) (x : String) : List String :=
  if l.contains x then l else l ++ [x]

/-- How Python `str.format` renders a `Union[int, str]` argument. -/
def pyValFmt : PyVal → String
  | .int n => toString n
  | .str s => s

/-- The `.sec` failure message of `glue_labels_and_sections`. -/
def secErrMsg (value : Option ParsedValue) (line : Nat) : String :=
  "section name '" ++ (match value with | some pv => pyValFmt pv.value | none => "None") ++
    "' with type " ++ (match value with | some pv => pv.type | none => "None") ++
    " was invalid on line " ++ toString line

/-- The recursion of `glue_labels_and_sections` carrying the pending
label set and the current section name.  A stream element that is
neither parsed instruction, directive nor label would make Python's
`item.__class__(labels=..., ...)` call raise `TypeError`; such elements
never occur in the gluer's input. -/
def glueGo (labels : List String) (sectionName : String) :
    List Item → Except AsmErr (List Item)
  | [] => .ok []
  | item :: rest =>
    match item with
    | .lbl lab => glueGo (setAdd labels lab.name) sectionName rest
    | .dir d =>
      if d.name = ".sec" then
        match d.value with
        | some pv =>
          if pv.type = "raw_value" then
            match pv.value with
            | .str s => glueGo labels s rest
            | .int _ => .error (.assemblyError (secErrMsg d.value d.line))
          else .error (.assemblyError (secErrMsg d.value d.line))
        | none => .error (.assemblyError (secErrMsg d.value d.line))
      else do
        let out ← glueGo [] sectionName rest
        .ok (.dir { d with labels := labels, sectionName := sectionName } :: out)
    | .inst i => do
      let out ← glueGo [] sectionName rest
      .ok (.inst { i with labels := labels, sectionName := sectionName } :: out)
    | _ => .error .typeError

/-- `glue_labels_and_sections`. -/
def glueLabelsAndSections (items : List Item) : Except AsmErr (List Item) :=
  glueGo [] "any" items

/-- Does an item take the `.vec` branch of `assign_vectors`? -/
def isVecDir : Item → Bool
  | .dir d => strStarts d.name ".vec"
  | _ => false

/-- `assign_vectors`: `.vec`-prefixed directives become pre-addressed
`JUMP`s; the `assert` maps to `AssertionError` when it fails.  Note the
source computes the vector name as `item.name[5:]`, dropping five
characters of the directive name. -/
def assignVectors : List Item → Except AsmErr (List Item)
  | [] => .ok []
  | item :: rest =>
    match item with
    | .dir d =>
      if strStarts d.name ".vec" then
        let vectorName := d.name.drop 5
        match VECTORS.lookup vectorName, d.value with
        | some vec, some pv =>
          match pv.value with
          | .str s =>
            if pv.type = "reference" then do
              let out ← assignVectors rest
              .ok (.uval ⟨vec.address, .JUMP, s⟩ :: out)
            else .error .assertionError
          | .int _ => .error .assertionError
        | _, _ => .error .assertionError
      else do
        let out ← assignVectors rest
        .ok (item :: out)
    | _ => do
      let out ← assignVectors rest
      .ok (item :: out)

/-- `get_section_sizes`: count one cell per non-`UnresolvedAddressValue`
item, keyed by its section (elements without a `section` attribute do
not reach this stage). -/
def getSectionSizes (items : List Item) : List (String × Nat) :=
  items.foldl
    (fun sections item =>
      match item with
      | .uval _ => sections
      | .inst i => dictSet sections i.sectionName ((sections.lookup i.sectionName).getD 0 + 1)
      | .dir d => dictSet sections d.sectionName ((sections.lookup d.sectionName).getD 0 + 1)
      | _ => sections)
    []

/-- Total cell demand of all sections. -/
def sectionsTotal (sections : List (String × Nat)) : Nat :=
  (sections.map Prod.snd).sum

/-- `in_used_space`: the candidate range's endpoints are past `0xfff` or
inside one of the used ranges. -/
def inUsedSpace (used : List (Nat × Nat)) (start stop : Nat) : Bool :=
  decide (0xfff < start) || decide (0xfff < stop) ||
    used.any (fun x => decide ((x.1 ≤ start ∧ start ≤ x.2) ∨ (x.1 ≤ stop ∧ stop ≤ x.2)))

/-- `find_free_space`: scan the used ranges and return the first slot
`[end+1, end+size]` that passes `in_used_space`.  Python iterates a
`set` here; the model keeps insertion order (for the tables reachable
from the fixed seed the accepted slot is unique, so the order of the
scan cannot change the result). -/
def findFreeSpace (used : List (Nat × Nat)) (size : Nat) : Except AsmErr (Nat × Nat) :=
  match used.find? (fun x => ! inUsedSpace used (x.2 + 1) (x.2 + size)) with
  | some x => .ok (x.2 + 1, x.2 + size)
  | none => .error (.assemblyError "ran out of free space")

/-- The first loop of `assign_sections`: register every pre-existing
region's range, failing if one overlaps what is already registered. -/
def seedUsed (used : List (Nat × Nat)) :
    List (String × Region) → Except AsmErr (List (Nat × Nat))
  | [] => .ok used
  | (name, r) :: rest =>
    if inUsedSpace used r.start r.stop then
      .error (.assemblyError ("region " ++ name ++ " assigned in used space, memory is likely full"))
    else seedUsed (used ++ [(r.start, r.stop)]) rest

/-- The second loop of `assign_sections`: place each user section and
record it in the region table. -/
def placeSections (used : List (Nat × Nat)) (regionTable : RegionTable) :
    List (String × Nat) → Except AsmErr RegionTable
  | [] => .ok regionTable
  | (name, size) :: rest => do
    let (s, e) ← findFreeSpace used size
    placeSections (used ++ [(s, e)]) (dictSet regionTable name ⟨"user", s, e, 0⟩) rest

/-- `assign_sections`. -/
def assignSections (regionTable : RegionTable) (sections : List (String × Nat)) :
    Except AsmErr RegionTable := do
  let used ← seedUsed [] regionTable
  placeSections used regionTable sections

/-- Follows the spec's packing sentence: a candidate slot is valid when
it "lies within [0, 0xFFF] and overlaps no used range". -/
def slotOKSpec (used : List (Nat × Nat)) (s e : Nat) : Bool :=
  decide (s ≤ 0xfff ∧ e ≤ 0xfff) && used.all (fun p => decide (p.2 < s ∨ e < p.1))

/-- Spec-side counterpart of `find_free_space`: the first slot
`[end+1, end+size]` after an existing used range that is valid in the
sense of `slotOKSpec`. -/
def findFreeSpaceSpec (used : List (Nat × Nat)) (size : Nat) : Except AsmErr (Nat × Nat) :=
  match used.find? (fun x => slotOKSpec used (x.2 + 1) (x.2 + size)) with
  | some x => .ok (x.2 + 1, x.2 + size)
  | none => .error (.assemblyError "ran out of free space")

/-- Spec-side counterpart of `placeSections` using `findFreeSpaceSpec`. -/
def placeSectionsSpec (used : List (Nat × Nat)) (regionTable : RegionTable) :
    List (String × Nat) → Except AsmErr RegionTable
  | [] => .ok regionTable
  | (name, size) :: rest => do
    let (s, e) ← findFreeSpaceSpec used size
    placeSectionsSpec (used ++ [(s, e)]) (dictSet regionTable name ⟨"user", s, e, 0⟩) rest

/-- Spec-side counterpart of `assign_sections` (same seeding, placement
by `findFreeSpaceSpec`). -/
def assignSectionsSpec (regionTable : RegionTable) (sections : List (String × Nat)) :
    Except AsmErr RegionTable := do
  let used ← seedUsed [] regionTable
  placeSectionsSpec used regionTable sections

/-- `get_address`: allocate the next cell of the item's section and
return the updated region table (the Python function mutates it). -/
def getAddress (regionTable : RegionTable) (sectionName : String) (line : Nat) :
    Except AsmErr (Nat × RegionTable) :=
  match regionTable.lookup sectionName with
  | none => .error (.assemblyError ("item from line " ++ toString line ++ " has section " ++
      sectionName ++ " which is not in region table, this is a bug"))
  | some r =>
    let address := r.start + r.count
    let r' : Region := { r with count := r.count + 1 }
    if r'.start + r'.count - 1 > r'.stop then
      .error (.assemblyError ("item from line " ++ toString line ++ " did not fit in section " ++
        sectionName ++ ", this is a bug"))
    else .ok (address, dictSet regionTable sectionName r')

/-- `assign_constants` (reference and region tables threaded through in
place of Python's mutation). -/
def assignConstants (referenceTable : ReferenceTable) (regionTable : RegionTable) :
    List Item → Except AsmErr (ReferenceTable × RegionTable × List Item)
  | [] => .ok (referenceTable, regionTable, [])
  | item :: rest =>
    match item with
    | .dir d =>
      if d.name = ".const" then do
        let (address, rt') ← getAddress regionTable d.sectionName d.line
        let ref' := d.labels.foldl (fun t lab => dictSet t lab address) referenceTable
        let value ← serialiseValue d.value
        match value with
        | .str s => do
          let (rf, rg, out) ← assignConstants ref' rt' rest
          .ok (rf, rg, .uconst ⟨address, s⟩ :: out)
        | .int n => do
          let (rf, rg, out) ← assignConstants ref' rt' rest
          .ok (rf, rg, .aval ⟨address, n⟩ :: out)
      else do
        let (rf, rg, out) ← assignConstants referenceTable regionTable rest
        .ok (rf, rg, item :: out)
    | _ => do
      let (rf, rg, out) ← assignConstants referenceTable regionTable rest
      .ok (rf, rg, item :: out)

/-- `assign_instructions`. -/
def assignInstructions (referenceTable : ReferenceTable) (regionTable : RegionTable) :
    List Item → Except AsmErr (ReferenceTable × RegionTable × List Item)
  | [] => .ok (referenceTable, regionTable, [])
  | item :: rest =>
    match item with
    | .inst i => do
      let (address, rt') ← getAddress regionTable i.sectionName i.line
      let ref' := i.labels.foldl (fun t lab => dictSet t lab address) referenceTable
      let value ← serialiseValue i.value
      match instructionMembers.lookup (pyToUpper i.name) with
      | none => .error (.assemblyError ("unknown instruction " ++ i.name ++ " on line " ++ toString i.line))
      | some ins =>
        match value with
        | .str s => do
          let (rf, rg, out) ← assignInstructions ref' rt' rest
          .ok (rf, rg, .uval ⟨address, ins, s⟩ :: out)
        | .int n => do
          let (rf, rg, out) ← assignInstructions ref' rt' rest
          .ok (rf, rg, .aval ⟨address, ((ins.toNat <<< 12) &&& 0xf000) ||| (n &&& 0x0fff)⟩ :: out)
    | .dir d => .error (.assemblyError ("unknown directive " ++ d.name ++ " on line " ++ toString d.line))
    | _ => do
      let (rf, rg, out) ← assignInstructions referenceTable regionTable rest
      .ok (rf, rg, item :: out)

/-- `resolve_references`.  Parsed items no longer occur at this stage;
one would make Python call a missing `resolve` attribute. -/
def resolveReferences (referenceTable : ReferenceTable) :
    List Item → Except AsmErr (List AddressValue)
  | [] => .ok []
  | item :: rest =>
    match item with
    | .aval a => do
      let out ← resolveReferences referenceTable rest
      .ok (a :: out)
    | .uval u => do
      let a ← u.resolve referenceTable
      let out ← resolveReferences referenceTable rest
      .ok (a :: out)
    | .uconst u => do
      let a ← u.resolve referenceTable
      let out ← resolveReferences referenceTable rest
      .ok (a :: out)
    | _ => .error .typeError

/-! ### Serializers -/

/-- Lowercase zero-padded hexadecimal rendering, Python `{:0<width>x}`. -/
def hexPad (width n : Nat) : String :=
  let ds := Nat.toDigits 16 n
  String.mk (List.replicate (width - ds.length) '0' ++ ds)

/-- Stable insertion into a list sorted by ascending region start
(equal keys keep their existing order, like Python's stable `sorted`). -/
def insertByStart (x : String × Region) : List (String × Region) → List (String × Region)
  | [] => [x]
  | y :: ys =>
    if y.2.start ≤ x.2.start then y :: insertByStart x ys else x :: y :: ys

/-- `sorted(region_table.items(), key=lambda x: x[1].start)`. -/
def sortByStart (l : List (String × Region)) : List (String × Region) :=
  l.foldl (fun acc x => insertByStart x acc) []

/-- `serialise_to_text_file`, as the list of output lines. -/
def serialiseToTextLines (regionTable : RegionTable)
    (resolvedItems : List AddressValue) : List String :=
  ["/* GENERATED from sma16asm.py", " *", " * Regions:"] ++
    ((sortByStart regionTable).map (fun p =>
      " *   - " ++ p.1 ++ " from 0x" ++ hexPad 3 p.2.start ++ " to 0x" ++ hexPad 3 p.2.stop)) ++
    [" */", "START_PROGRAM"] ++
    (resolvedItems.map (fun it =>
      "MEM(0x" ++ hexPad 3 it.address ++ ", 0x" ++ hexPad 1 ((it.value >>> 12) &&& 0xf) ++
        ", 0x" ++ hexPad 3 (it.value &&& 0xfff) ++ ")")) ++
    ["END_PROGRAM"]

/-- The byte string of `serialise_to_text_file` (`"\n".join(lines)`). -/
def serialiseToTextFile (regionTable : RegionTable)
    (resolvedItems : List AddressValue) : String :=
  String.intercalate "\n" (serialiseToTextLines regionTable resolvedItems)

/-- `struct.pack(">H", v)`: two big-endian bytes, `struct.error` when
the value does not fit. -/
def packBE16 (v : Nat) : Except AsmErr (List Nat) :=
  if v < 0x10000 then .ok [v / 256, v % 256] else .error .structError

/-- The dense memory dictionary shared by the binary and hex
serializers: keys `0 .. max(addresses) - 1` zero-initialised, then each
item's value written at its address (a fresh maximal address is appended
at the end, preserving Python dict insertion order). -/
def denseMemory (resolvedItems : List AddressValue) (maxAddr : Nat) : List (Nat × Nat) :=
  resolvedItems.foldl (fun m it => dictSet m it.address it.value)
    ((List.range maxAddr).map (fun k => (k, 0)))

/-- `serialise_to_bin_file`: `max()` over the addresses raises
`ValueError` for an empty item stream. -/
def serialiseToBinFile (resolvedItems : List AddressValue) : Except AsmErr (List Nat) :=
  match (resolvedItems.map (fun x => x.address)).max? with
  | none => .error .valueError
  | some maxAddr =>
    (denseMemory resolvedItems maxAddr).foldlM
      (fun acc p => do
        let b ← packBE16 p.2
        pure (acc ++ b))
      ([] : List Nat)

/-- `serialise_to_hex_file`: same dense array, four lowercase hex digits
per cell, a line break after every eighth cell. -/
def serialiseToHexFile (resolvedItems : List AddressValue) : Except AsmErr String :=
  match (resolvedItems.map (fun x => x.address)).max? with
  | none => .error .valueError
  | some maxAddr =>
    .ok ((denseMemory resolvedItems maxAddr).foldl
      (fun acc p => acc ++ hexPad 4 p.2 ++ (if p.1 % 8 == 7 then "\n" else ""))
      "")

/-- The guard `sum(sections.values()) >= 2**12 - 16` of `assemble_file`. -/
def memoryFull (sections : List (String × Nat)) : Bool :=
  decide (2 ^ 12 - 16 ≤ sectionsTotal sections)

/-- `assemble_file` from the section-size computation onwards (its input
is the stream produced by `assign_vectors`). -/
def assembleFromItems (items : List Item) :
    Except AsmErr (ReferenceTable × RegionTable × List AddressValue) :=
  let sections := getSectionSizes items
  if memoryFull sections then .error (.assemblyError "memory full")
  else do
    let regionTable ← assignSections REGIONS sections
    let (ref1, rt1, partiallyUnresolvedItems) ← assignConstants CONSTANTS regionTable items
    let (ref2, rt2, unresolvedItems) ← assignInstructions ref1 rt1 partiallyUnresolvedItems
    let resolvedItems ← resolveReferences ref2 unresolvedItems
    .ok (ref2, rt2, resolvedItems)

/-- The core of `assemble_file` (everything between reading the input
lines and choosing an output serializer). -/
def assemblePipeline (srcLines : List String) :
    Except AsmErr (ReferenceTable × RegionTable × List AddressValue) := do
  let parsedLines ← parseLines srcLines
  let gluedItems ← glueLabelsAndSections parsedLines
  let itemsWithVectorsAssigned ← assignVectors gluedItems
  assembleFromItems itemsWithVectorsAssigned

/-! ### Shared helper lemmas -/

/-- Decompose a successful `Except` bind. -/
theorem exceptBind_ok {ε α β : Type} {x : Except ε α} {f : α → Except ε β} {c : β}
    (h : (x >>= f) = .ok c) : ∃ b, x = .ok b ∧ f b = .ok c := by
  cases x with
  | error e => simp [Bind.bind, Except.bind, Except.map] at h
  | ok b => exact ⟨b, rfl, by simpa [Bind.bind, Except.bind, Except.map] using h⟩

/-- Every element of `dictSet d k v` is either the written value or an
element of `d`. -/
theorem dictSet_mem {κ α : Type} [BEq κ] (d : List (κ × α)) (k : κ) (v : α) :
    ∀ q ∈ dictSet d k v, q.2 = v ∨ q ∈ d := by
  induction d with
  | nil => intro q hq; simp [dictSet] at hq; simp [hq]
  | cons p rest ih =>
    intro q hq
    simp only [dictSet] at hq
    by_cases hk : p.1 == k
    · rw [if_pos hk] at hq
      rcases List.mem_cons.mp hq with h | h
      · left; rw [h]
      · right; exact List.mem_cons_of_mem _ h
    · rw [if_neg hk] at hq
      rcases List.mem_cons.mp hq with h | h
      · right; rw [h]; exact List.mem_cons_self _ _
      · rcases ih q h with h' | h'
        · left; exact h'
        · right; exact List.mem_cons_of_mem _ h'

/-- `a &&& 63` is the identity below 64 (finite check). -/
theorem and63_fin : ∀ m : Fin 64, m.val &&& 63 = m.val := by decide

/-- `a &&& 63 = a` for `a < 64`. -/
theorem and63_of_lt {a : Nat} (h : a < 64) : a &&& 63 = a := and63_fin ⟨a, h⟩

/-- Packing two 6-bit values into one cell and reading them back
(finite check over the 64×64 domain). -/
theorem packUnpack_fin : ∀ a b : Fin 64,
    ((((a.val <<< 6) ||| b.val) >>> 6) &&& 0x3f = a.val) ∧
    (((a.val <<< 6) ||| b.val) &&& 0x3f = b.val) := by decide

/-! ### Claim C2: the memory-full boundary -/

/-- The memory-full guard aborts `assemble_file` with the exact
`memory full` message. -/
theorem assembleFromItems_memoryFull (items : List Item)
    (h : memoryFull (getSectionSizes items) = true) :
    assembleFromItems items = .error (.assemblyError "memory full") := by
  simp [assembleFromItems, h]

/-- `get_section_sizes` of `n` copies of a sectionless `NOOP`
accumulates a single `any` section of size `n`. -/
theorem getSectionSizes_replicate_noop (n : Nat) (hn : n ≠ 0) :
    getSectionSizes (List.replicate n (.inst ⟨"NOOP", none, [], "any", 1⟩)) = [("any", n)] := by
  have key : ∀ m k, List.foldl
      (fun sections item =>
        match item with
        | .uval _ => sections
        | .inst i => dictSet sections i.sectionName ((sections.lookup i.sectionName).getD 0 + 1)
        | .dir d => dictSet sections d.sectionName ((sections.lookup d.sectionName).getD 0 + 1)
        | _ => sections)
      [("any", k)]
      (List.replicate m (Item.inst ⟨"NOOP", none, [], "any", 1⟩)) = [("any", k + m)] := by
    intro m
    induction m with
    | zero => intro k; simp
    | succ m ih =>
      intro k
      rw [List.replicate_succ, List.foldl_cons]
      have hstep : dictSet [("any", k)] "any" (([(("any" : String), k)].lookup "any").getD 0 + 1) =
          [("any", k + 1)] := by rfl
      simp only [hstep]
      rw [ih (k + 1)]
      have harith : k + 1 + m = k + (m + 1) := by omega
      rw [harith]
  cases n with
  | zero => exact absurd rfl hn
  | succ m =>
    unfold getSectionSizes
    rw [List.replicate_succ, List.foldl_cons]
    have h0 : dictSet ([] : List (String × Nat)) "any" ((([] : List (String × Nat)).lookup "any").getD 0 + 1) =
        [("any", 1)] := by rfl
    simp only [h0]
    rw [key m 1]
    have harith : 1 + m = m + 1 := by omega
    rw [harith]

/-- C2, corrected: the `memory full` error fires exactly when the total
section demand plus the 16 reserved cells reaches (not only exceeds)
4096, i.e. when the demand is at least 4080; and the pipeline equals the
post-vector stage on the items the early stages produce. -/
theorem claim_C2_amended :
    (∀ sections, memoryFull sections = true ↔ 4096 ≤ sectionsTotal sections + 16) ∧
    (∀ items, memoryFull (getSectionSizes items) = true →
      assembleFromItems items = .error (.assemblyError "memory full")) ∧
    (∀ srcLines items,
      ((parseLines srcLines >>= glueLabelsAndSections) >>= assignVectors) = .ok items →
      assemblePipeline srcLines = assembleFromItems items) := by
  refine ⟨?_, assembleFromItems_memoryFull, ?_⟩
  · intro sections
    simp only [memoryFull, decide_eq_true_eq]
    omega
  · intro srcLines items h
    obtain ⟨g, hg, hv⟩ := exceptBind_ok h
    obtain ⟨p, hp, hglue⟩ := exceptBind_ok hg
    simp [assemblePipeline, hp, hglue, hv, Bind.bind, Except.bind, Except.map]

/-- C2, counterexample to the claim as stated: a total section demand of
exactly 4080 cells does not succeed — the code raises `memory full` even
though 4080 + 16 does not exceed 4096. -/
theorem claim_C2_counterexample :
    assembleFromItems (List.replicate 4080 (.inst ⟨"NOOP", none, [], "any", 1⟩)) =
      .error (.assemblyError "memory full") ∧
    ¬ (4096 < 4080 + 16) := by
  constructor
  · apply assembleFromItems_memoryFull
    rw [getSectionSizes_replicate_noop _ (by decide)]
    decide
  · omega

/-- Witness for `claim_C2_amended` at a concrete overfull item stream. -/
theorem claim_C2_witness :
    assembleFromItems (List.replicate 4081 (.inst ⟨"NOOP", none, [], "any", 1⟩)) =
      .error (.assemblyError "memory full") :=
  claim_C2_amended.2.1 _ (by rw [getSectionSizes_replicate_noop _ (by decide)]; decide)

/-! ### Claim C8: instruction encoding -/

/-- `serialise_value` of a parsed integer is that integer. -/
theorem serialiseValue_integer (n : Nat) :
    serialiseValue (some ⟨"integer", .int n⟩) = .ok (.int n) := by rfl

/-- The cell computed by `assign_instructions` equals the spec's
`((o &&& 0xF) <<< 12) ||| (d &&& 0xFFF)` form. -/
theorem instrEncodeEq (i : Instruction) (d : Nat) :
    ((i.toNat <<< 12) &&& 0xf000) ||| (d &&& 0x0fff) =
      ((i.toNat &&& 0xF) <<< 12) ||| (d &&& 0xFFF) := by
  have h : (i.toNat <<< 12) &&& 0xf000 = (i.toNat &&& 0xF) <<< 12 := by
    cases i <;> rfl
  rw [h]

/-- C8, confirmed: an instruction whose mnemonic resolves to opcode `o`
and whose value is the integer `d` is emitted as
`((o &&& 0xF) <<< 12) ||| (d &&& 0xFFF)` — the data truncated to 12
bits — and an instruction with no value token is encoded with data 0. -/
theorem claim_C8_thm (rf : ReferenceTable) (rt : RegionTable)
    (name sec : String) (labels : List String) (ln : Nat)
    (ins : Instruction) (d addr : Nat) (rt' : RegionTable)
    (hname : instructionMembers.lookup (pyToUpper name) = some ins)
    (haddr : getAddress rt sec ln = .ok (addr, rt')) :
    assignInstructions rf rt [.inst ⟨name, some ⟨"integer", .int d⟩, labels, sec, ln⟩] =
      .ok (labels.foldl (fun t lab => dictSet t lab addr) rf, rt',
        [.aval ⟨addr, ((ins.toNat &&& 0xF) <<< 12) ||| (d &&& 0xFFF)⟩]) ∧
    assignInstructions rf rt [.inst ⟨name, none, labels, sec, ln⟩] =
      .ok (labels.foldl (fun t lab => dictSet t lab addr) rf, rt',
        [.aval ⟨addr, ((ins.toNat &&& 0xF) <<< 12) ||| (0 &&& 0xFFF)⟩]) := by
  constructor
  · rw [← instrEncodeEq]
    simp [assignInstructions, haddr, hname, serialiseValue_integer, Bind.bind, Except.bind, Except.map]
  · rw [← instrEncodeEq]
    simp [assignInstructions, haddr, hname, serialiseValue, Bind.bind, Except.bind, Except.map]

/-- Witness for `claim_C8_thm`: `LOAD 0x1FFF` in a one-cell section at
address 16 encodes as `0x4FFF`, and a bare `LOAD` as `0x4000`. -/
theorem claim_C8_witness :
    assignInstructions CONSTANTS [("code", ⟨"user", 16, 16, 0⟩)]
        [.inst ⟨"load", some ⟨"integer", .int 0x1FFF⟩, [], "code", 1⟩] =
      .ok (CONSTANTS, [("code", ⟨"user", 16, 16, 1⟩)], [.aval ⟨16, 0x4FFF⟩]) ∧
    assignInstructions CONSTANTS [("code", ⟨"user", 16, 16, 0⟩)]
        [.inst ⟨"load", none, [], "code", 1⟩] =
      .ok (CONSTANTS, [("code", ⟨"user", 16, 16, 1⟩)], [.aval ⟨16, 0x4000⟩]) := by
  have h := claim_C8_thm CONSTANTS [("code", ⟨"user", 16, 16, 0⟩)] "load" "code" [] 1
    .LOAD 0x1FFF 16 [("code", ⟨"user", 16, 16, 1⟩)] (by rfl) (by rfl)
  exact ⟨h.1, h.2⟩

/-! ### Claim C9: short-string packing round-trip -/

/-- The inverse of the 64-symbol small alphabet, on Unicode code
points: `A-Z` = 0–25, `a-z` = 26–51, `0-9` = 52–61, space = 62,
underscore = 63. -/
def smallAlphabetOrd (v : Nat) : Option Nat :=
  if v ≤ 25 then some (v + 65)
  else if v ≤ 51 then some (v - 26 + 97)
  else if v ≤ 61 then some (v - 52 + 48)
  else if v = 62 then some 32
  else if v = 63 then some 95
  else none

/-- A successfully transformed character is below 64 and the alphabet
maps its 6-bit code back to its code point. -/
theorem transformCharacter_ok (c : Char) (v : Nat)
    (h : transformCharacter c = .ok v) :
    v < 64 ∧ smallAlphabetOrd v = some c.toNat := by
  unfold transformCharacter at h
  split_ifs at h with h1 h2 h3 h4 h5
  all_goals injection h with hv
  · have hb : c.toNat - 65 < 64 := by omega
    rw [and63_of_lt hb] at hv
    subst hv
    refine ⟨hb, ?_⟩
    unfold smallAlphabetOrd
    rw [if_pos (by omega)]
    congr 1
    omega
  · have hb : c.toNat + 26 - 97 < 64 := by omega
    rw [and63_of_lt hb] at hv
    subst hv
    refine ⟨hb, ?_⟩
    unfold smallAlphabetOrd
    rw [if_neg (by omega), if_pos (by omega)]
    congr 1
    omega
  · have hb : c.toNat + 52 - 48 < 64 := by omega
    rw [and63_of_lt hb] at hv
    subst hv
    refine ⟨hb, ?_⟩
    unfold smallAlphabetOrd
    rw [if_neg (by omega), if_neg (by omega), if_pos (by omega)]
    congr 1
    omega
  · subst hv
    refine ⟨by omega, ?_⟩
    unfold smallAlphabetOrd
    rw [if_neg (by omega), if_neg (by omega), if_neg (by omega), if_pos rfl]
    rw [h4]
  · subst hv
    refine ⟨by omega, ?_⟩
    unfold smallAlphabetOrd
    rw [if_neg (by omega), if_neg (by omega), if_neg (by omega), if_neg (by omega), if_pos rfl]
    rw [h5]

/-- C9, corrected: packing two alphabet characters gives
`(enc c1 <<< 6) ||| enc c2`, both characters are recovered through
`(cell >>> 6) &&& 0x3F` and `cell &&& 0x3F`, and `s"Ab"` packs to
`0x01B`; but `s"_ "` packs to `(63 <<< 6) ||| 62 = 0xFFE`, not the
claimed `0xFBE`. -/
theorem claim_C9_amended (c1 c2 : Char) (v1 v2 : Nat)
    (h1 : transformCharacter c1 = .ok v1) (h2 : transformCharacter c2 = .ok v2) :
    (serialiseValue (some ⟨"short_string", .str (String.mk [c1, c2])⟩) =
      .ok (.int ((v1 <<< 6) ||| v2)) ∧
     smallAlphabetOrd ((((v1 <<< 6) ||| v2) >>> 6) &&& 0x3f) = some c1.toNat ∧
     smallAlphabetOrd (((v1 <<< 6) ||| v2) &&& 0x3f) = some c2.toNat) ∧
    serialiseValue (some ⟨"short_string", .str "Ab"⟩) = .ok (.int 0x01B) ∧
    serialiseValue (some ⟨"short_string", .str "_ "⟩) = .ok (.int 0xFFE) := by
  obtain ⟨hb1, hinv1⟩ := transformCharacter_ok c1 v1 h1
  obtain ⟨hb2, hinv2⟩ := transformCharacter_ok c2 v2 h2
  obtain ⟨hu1, hu2⟩ := packUnpack_fin ⟨v1, hb1⟩ ⟨v2, hb2⟩
  refine ⟨⟨?_, ?_, ?_⟩, by rfl, by rfl⟩
  · simp [serialiseValue, firstTwoChars, String.mk, h1, h2, Bind.bind, Except.bind, Except.map]
  · rw [hu1]; exact hinv1
  · rw [hu2]; exact hinv2

/-- C9, counterexample to the claim as stated: `s"_ "` packs to
`0xFFE = 4094`, not `0xFBE = 4030`. -/
theorem claim_C9_counterexample :
    serialiseValue (some ⟨"short_string", .str "_ "⟩) = .ok (.int 0xFFE) ∧
    (0xFFE : Nat) ≠ 0xFBE := by
  exact ⟨by rfl, by decide⟩

/-- Witness for `claim_C9_amended`: the pair `('A', 'b')` packs to
`0x01B` and both codes map back. -/
theorem claim_C9_witness :
    (serialiseValue (some ⟨"short_string", .str (String.mk ['A', 'b'])⟩) =
      .ok (.int ((0 <<< 6) ||| 27)) ∧
     smallAlphabetOrd ((((0 <<< 6) ||| 27) >>> 6) &&& 0x3f) = some 'A'.toNat ∧
     smallAlphabetOrd (((0 <<< 6) ||| 27) &&& 0x3f) = some 'b'.toNat) ∧
    serialiseValue (some ⟨"short_string", .str "Ab"⟩) = .ok (.int 0x01B) ∧
    serialiseValue (some ⟨"short_string", .str "_ "⟩) = .ok (.int 0xFFE) :=
  claim_C9_amended 'A' 'b' 0 27 (by rfl) (by rfl)

/-! ### Claim C10: the label/section gluer -/

/-- C10, confirmed: a `.sec` directive with a `RawValue` string value
sets the current section and leaves the pending label set untouched; a
real item is emitted with the pending labels and the current section and
the recursion continues with an empty pending set; a `.sec` whose value
is missing or not a raw string raises the `AssemblyError`. -/
theorem claim_C10_thm :
    (∀ labels sectionName s (d : ParsedDirective) rest,
      d.name = ".sec" → d.value = some ⟨"raw_value", .str s⟩ →
      glueGo labels sectionName (.dir d :: rest) = glueGo labels s rest) ∧
    (∀ labels sectionName (i : ParsedInstruction) rest,
      glueGo labels sectionName (.inst i :: rest) =
        (glueGo [] sectionName rest).map
          (fun out => .inst { i with labels := labels, sectionName := sectionName } :: out)) ∧
    (∀ labels sectionName (d : ParsedDirective) rest,
      d.name ≠ ".sec" →
      glueGo labels sectionName (.dir d :: rest) =
        (glueGo [] sectionName rest).map
          (fun out => .dir { d with labels := labels, sectionName := sectionName } :: out)) ∧
    (∀ labels sectionName (d : ParsedDirective) rest,
      d.name = ".sec" →
      (∀ s, d.value ≠ some ⟨"raw_value", .str s⟩) →
      glueGo labels sectionName (.dir d :: rest) =
        .error (.assemblyError (secErrMsg d.value d.line))) := by
  refine ⟨?_, ?_, ?_, ?_⟩
  · intro labels sectionName s d rest hname hval
    simp [glueGo, hname, hval]
  · intro labels sectionName i rest
    cases hrest : glueGo [] sectionName rest with
    | error e => simp [glueGo, hrest, Bind.bind, Except.bind, Except.map]
    | ok out => simp [glueGo, hrest, Bind.bind, Except.bind, Except.map]
  · intro labels sectionName d rest hname
    cases hrest : glueGo [] sectionName rest with
    | error e => simp [glueGo, hname, hrest, Bind.bind, Except.bind, Except.map]
    | ok out => simp [glueGo, hname, hrest, Bind.bind, Except.bind, Except.map]
  · intro labels sectionName d rest hname hval
    match hv : d.value with
    | none => simp [glueGo, hname, hv]
    | some pv =>
      match pv, hv with
      | ⟨ty, .int n⟩, hv =>
        by_cases hty : ty = "raw_value"
        · subst hty; simp [glueGo, hname, hv]
        · simp [glueGo, hname, hv, hty]
      | ⟨ty, .str s⟩, hv =>
        have hty : ty ≠ "raw_value" := by
          intro hcontra
          subst hcontra
          exact hval s hv
        simp [glueGo, hname, hv, hty]

/-- Witness for `claim_C10_thm`: a label followed by `.sec code`
binds to the next real item, which is emitted in section `code`. -/
theorem claim_C10_witness :
    glueGo ["start"] "any"
      [.dir ⟨".sec", some ⟨"raw_value", .str "code"⟩, [], "any", 2⟩,
       .inst ⟨"HALT", none, [], "any", 3⟩] =
      .ok [.inst ⟨"HALT", none, ["start"], "code", 3⟩] := by
  rw [claim_C10_thm.1 ["start"] "any" "code" ⟨".sec", some ⟨"raw_value", .str "code"⟩, [], "any", 2⟩
    _ rfl rfl]
  rw [claim_C10_thm.2.1 ["start"] "code" ⟨"HALT", none, [], "any", 3⟩ []]
  rfl

/-! ### Claim C1: the vector installer -/

/-- C1, corrected: `assign_vectors` computes the vector name as
`item.name[5:]`, so the directive's name must carry five characters
before the vector name (`.vecreset` itself fails the assertion; a name
such as `.vec_reset` works).  When `name.drop 5` is a known vector and
the value is a reference, the yielded `UnresolvedAddressValue` sits at
the vector's fixed address with opcode `JUMP` and the reference's
symbol; items that are not `.vec`-prefixed directives pass through
unchanged; the vector table fixes reset at 0x000, fault at 0x001 and
software at 0x002. -/
theorem claim_C1_amended :
    (∀ (d : ParsedDirective) (s : String) (vec : Vector) rest,
      strStarts d.name ".vec" = true →
      VECTORS.lookup (d.name.drop 5) = some vec →
      d.value = some ⟨"reference", .str s⟩ →
      assignVectors (.dir d :: rest) =
        (assignVectors rest).map (fun out => .uval ⟨vec.address, .JUMP, s⟩ :: out)) ∧
    (∀ item rest, isVecDir item = false →
      assignVectors (item :: rest) = (assignVectors rest).map (fun out => item :: out)) ∧
    VECTORS.lookup "reset" = some ⟨0x000, 1⟩ ∧
    VECTORS.lookup "fault" = some ⟨0x001, 1⟩ ∧
    VECTORS.lookup "software" = some ⟨0x002, 6⟩ := by
  refine ⟨?_, ?_, by rfl, by rfl, by rfl⟩
  · intro d s vec rest hstart hlook hval
    cases hrest : assignVectors rest with
    | error e => simp [assignVectors, hstart, hlook, hval, hrest, Bind.bind, Except.bind, Except.map]
    | ok out => simp [assignVectors, hstart, hlook, hval, hrest, Bind.bind, Except.bind, Except.map]
  · intro item rest hvec
    cases item with
    | dir d =>
      simp only [isVecDir] at hvec
      cases hrest : assignVectors rest with
      | error e => simp [assignVectors, hvec, hrest, Bind.bind, Except.bind, Except.map]
      | ok out => simp [assignVectors, hvec, hrest, Bind.bind, Except.bind, Except.map]
    | inst i =>
      cases hrest : assignVectors rest with
      | error e => simp [assignVectors, hrest, Bind.bind, Except.bind, Except.map]
      | ok out => simp [assignVectors, hrest, Bind.bind, Except.bind, Except.map]
    | lbl l =>
      cases hrest : assignVectors rest with
      | error e => simp [assignVectors, hrest, Bind.bind, Except.bind, Except.map]
      | ok out => simp [assignVectors, hrest, Bind.bind, Except.bind, Except.map]
    | uval u =>
      cases hrest : assignVectors rest with
      | error e => simp [assignVectors, hrest, Bind.bind, Except.bind, Except.map]
      | ok out => simp [assignVectors, hrest, Bind.bind, Except.bind, Except.map]
    | uconst u =>
      cases hrest : assignVectors rest with
      | error e => simp [assignVectors, hrest, Bind.bind, Except.bind, Except.map]
      | ok out => simp [assignVectors, hrest, Bind.bind, Except.bind, Except.map]
    | aval a =>
      cases hrest : assignVectors rest with
      | error e => simp [assignVectors, hrest, Bind.bind, Except.bind, Except.map]
      | ok out => simp [assignVectors, hrest, Bind.bind, Except.bind, Except.map]

/-- C1, counterexample to the claim as stated: the glued directive
`.vecreset @start` makes `assign_vectors` fail its assertion
(`".vecreset"[5:]` is `"eset"`, not a known vector), instead of
yielding the claimed `UnresolvedAddressValue` at 0x000. -/
theorem claim_C1_counterexample :
    assignVectors [.dir ⟨".vecreset", some ⟨"reference", .str "start"⟩, [], "any", 1⟩] =
      .error .assertionError ∧
    (".vecreset" : String).drop 5 = "eset" :=
  ⟨by rfl, by rfl⟩

/-- Witness for `claim_C1_amended`: a directive whose name drops five
characters to `reset` installs the jump at address 0x000. -/
theorem claim_C1_witness :
    assignVectors [.dir ⟨".vec_reset", some ⟨"reference", .str "start"⟩, [], "any", 1⟩] =
      .ok [.uval ⟨0x000, .JUMP, "start"⟩] := by
  rw [claim_C1_amended.1 ⟨".vec_reset", some ⟨"reference", .str "start"⟩, [], "any", 1⟩
    "start" ⟨0x000, 1⟩ [] (by rfl) (by rfl) rfl]
  rfl

/-! ### Claim C3: cell value ranges -/

/-- C3, corrected: a `.const` with integer literal `n` is emitted with
value exactly `n` — the assembler applies no 16-bit mask — so the cell
value is in `[0, 0x10000)` exactly when `n` is; the assigned address
stays below `0x1000` whenever the section's region ends within the
12-bit space. -/
theorem claim_C3_amended (rf : ReferenceTable) (rt : RegionTable)
    (labels : List String) (sec : String) (ln n addr : Nat) (rt' : RegionTable) (r : Region)
    (hlook : rt.lookup sec = some r) (hstop : r.stop ≤ 0xfff)
    (haddr : getAddress rt sec ln = .ok (addr, rt')) :
    assignConstants rf rt [.dir ⟨".const", some ⟨"integer", .int n⟩, labels, sec, ln⟩] =
      .ok (labels.foldl (fun t lab => dictSet t lab addr) rf, rt', [.aval ⟨addr, n⟩]) ∧
    addr < 0x1000 ∧
    ((⟨addr, n⟩ : AddressValue).value < 0x10000 ↔ n < 0x10000) := by
  have haddr' := haddr
  rw [getAddress, hlook] at haddr'
  dsimp only [] at haddr'
  by_cases hfit : r.start + (r.count + 1) - 1 > r.stop
  · rw [if_pos hfit] at haddr'
    simp at haddr'
  · rw [if_neg hfit] at haddr'
    simp at haddr'
    obtain ⟨ha, _⟩ := haddr'
    refine ⟨?_, ?_, Iff.rfl⟩
    · simp [assignConstants, haddr, serialiseValue_integer, Bind.bind, Except.bind, Except.map]
    · omega

/-- C3, counterexample to the claim as stated: the well-formed source
`.const 0x10000` assembles to a cell whose value is 65536, outside
`[0, 0x10000)`. -/
theorem claim_C3_counterexample :
    assemblePipeline [".const 0x10000"] =
      .ok (CONSTANTS,
        [("configuration", ⟨"reserved", 0x008, 0x00f, 8⟩),
         ("vectors", ⟨"reserved", 0x000, 0x007, 8⟩),
         ("any", ⟨"user", 16, 16, 1⟩)],
        [⟨16, 65536⟩]) ∧
    ¬ ((65536 : Nat) < 0x10000) :=
  ⟨by rfl, by decide⟩

/-- Witness for `claim_C3_amended` at a one-cell `data` section. -/
theorem claim_C3_witness :
    assignConstants CONSTANTS [("data", ⟨"user", 16, 16, 0⟩)]
        [.dir ⟨".const", some ⟨"integer", .int 7⟩, [], "data", 1⟩] =
      .ok (CONSTANTS, [("data", ⟨"user", 16, 16, 1⟩)], [.aval ⟨16, 7⟩]) ∧
    (16 : Nat) < 0x1000 ∧
    ((⟨16, 7⟩ : AddressValue).value < 0x10000 ↔ (7 : Nat) < 0x10000) :=
  claim_C3_amended CONSTANTS [("data", ⟨"user", 16, 16, 0⟩)] [] "data" 1 7 16
    [("data", ⟨"user", 16, 16, 1⟩)] ⟨"user", 16, 16, 0⟩ (by rfl) (by decide) (by rfl)

/-! ### Claim C6: the empty item stream -/

/-- A line that strips to nothing or to a `#` comment parses to no
items. -/
theorem parseLine_trivial (line : String) (n : Nat)
    (h : trimList line.toList = [] ∨ (trimList line.toList).head? = some '#') :
    parseLine line n = .ok [] := by
  unfold parseLine
  simp only [String.toList] at h
  rcases h with h | h
  · simp [h]
  · simp [h]

/-- `parse_lines` of only blank/comment lines yields the empty item
stream. -/
theorem parseLinesGo_trivial (lines : List String)
    (h : ∀ l ∈ lines, trimList l.toList = [] ∨ (trimList l.toList).head? = some '#') :
    ∀ n, parseLines.go n lines = .ok [] := by
  induction lines with
  | nil => intro n; rfl
  | cons l ls ih =>
    intro n
    have hl := h l (List.mem_cons_self _ _)
    have hrest := ih (fun x hx => h x (List.mem_cons_of_mem _ hx))
    simp [parseLines.go, parseLine_trivial l n hl, hrest (n + 1), Bind.bind, Except.bind]

/-- C6, corrected: a source of only comments and blank lines produces
the empty item stream and the text serializer emits just the header
comment and the `START_PROGRAM`/`END_PROGRAM` markers with no `MEM`
lines — but the binary and hex serializers raise `ValueError` (Python's
`max()` over no addresses) instead of returning empty byte strings. -/
theorem claim_C6_amended :
    (∀ srcLines,
      (∀ l ∈ srcLines, trimList l.toList = [] ∨ (trimList l.toList).head? = some '#') →
      assemblePipeline srcLines = .ok (CONSTANTS, REGIONS, [])) ∧
    serialiseToBinFile [] = .error .valueError ∧
    serialiseToHexFile [] = .error .valueError ∧
    serialiseToTextLines REGIONS [] =
      ["/* GENERATED from sma16asm.py", " *", " * Regions:",
       " *   - vectors from 0x000 to 0x007",
       " *   - configuration from 0x008 to 0x00f",
       " */", "START_PROGRAM", "END_PROGRAM"] ∧
    (serialiseToTextLines REGIONS []).all (fun l => ! strStarts l "MEM(") = true := by
  refine ⟨?_, by rfl, by rfl, by rfl, by rfl⟩
  intro srcLines h
  have hp : parseLines srcLines = .ok [] := parseLinesGo_trivial srcLines h 1
  simp [assemblePipeline, hp, Bind.bind, Except.bind]
  rfl

/-- C6, counterexample to the claim as stated: on the empty item stream
the binary and hex serializers do not return empty outputs — both raise
`ValueError`. -/
theorem claim_C6_counterexample :
    serialiseToBinFile [] = .error .valueError ∧ serialiseToBinFile [] ≠ .ok [] ∧
    serialiseToHexFile [] = .error .valueError ∧ serialiseToHexFile [] ≠ .ok "" := by
  refine ⟨by rfl, ?_, by rfl, ?_⟩
  · rw [(by rfl : serialiseToBinFile ([] : List AddressValue) = .error .valueError)]
    exact fun h => Except.noConfusion h
  · rw [(by rfl : serialiseToHexFile ([] : List AddressValue) = .error .valueError)]
    exact fun h => Except.noConfusion h

/-- Witness for `claim_C6_amended` on a concrete comment-only source. -/
theorem claim_C6_witness :
    assemblePipeline ["# a comment", "", "   "] = .ok (CONSTANTS, REGIONS, []) :=
  claim_C6_amended.1 ["# a comment", "", "   "] (by decide)

/-! ### Claim C5: undefined-reference suggestions -/

/-- Substring test on character lists (structural). -/
def subList (pat : List Char) : List Char → Bool
  | [] => startsList [] pat
  | c :: rest => startsList (c :: rest) pat || subList pat rest

/-- Python `pat in s` for strings. -/
def strContainsSub (s pat : String) : Bool :=
  subList pat.toList s.toList

theorem nlargest1_fold_some (word : String) :
    ∀ (l : List String) (b : String),
      l.foldl
        (fun acc x =>
          match acc with
          | none => some x
          | some b => if betterMatch word x b then some x else some b)
        (some b) = some c → c = b ∨ c ∈ l := by
  intro l
  induction l with
  | nil => intro b h; simp at h; exact Or.inl h.symm
  | cons x xs ih =>
    intro b h
    simp only [List.foldl_cons] at h
    by_cases hb : betterMatch word x b
    · rw [if_pos hb] at h
      rcases ih x h with h' | h'
      · exact Or.inr (h' ▸ List.mem_cons_self _ _)
      · exact Or.inr (List.mem_cons_of_mem _ h')
    · rw [if_neg hb] at h
      rcases ih b h with h' | h'
      · exact Or.inl h'
      · exact Or.inr (List.mem_cons_of_mem _ h')

theorem nlargest1_fold_isSome (word : String) :
    ∀ (l : List String) (b : String),
      (l.foldl
        (fun acc x =>
          match acc with
          | none => some x
          | some b => if betterMatch word x b then some x else some b)
        (some b)).isSome = true := by
  intro l
  induction l with
  | nil => intro b; rfl
  | cons x xs ih =>
    intro b
    simp only [List.foldl_cons]
    by_cases hb : betterMatch word x b
    · rw [if_pos hb]; exact ih x
    · rw [if_neg hb]; exact ih b

/-- `nlargest1` returns nothing exactly on the empty candidate list. -/
theorem nlargest1_none_iff (word : String) (l : List String) :
    nlargest1 word l = none ↔ l = [] := by
  cases l with
  | nil => simp [nlargest1]
  | cons x xs =>
    simp only [nlargest1, List.foldl_cons]
    constructor
    · intro h
      have := nlargest1_fold_isSome word xs x
      rw [h] at this
      simp at this
    · intro h
      simp at h

/-- A returned best match is one of the candidates. -/
theorem nlargest1_mem (word : String) (l : List String) (m : String)
    (h : nlargest1 word l = some m) : m ∈ l := by
  cases l with
  | nil => simp [nlargest1] at h
  | cons x xs =>
    simp only [nlargest1, List.foldl_cons] at h
    rcases nlargest1_fold_some word xs x h with h' | h'
    · exact h' ▸ List.mem_cons_self _ _
    · exact List.mem_cons_of_mem _ h'

/-- The suggestion suffix is never the empty string. -/
theorem didYouMean_some_ne_empty (m : String) :
    (", did you mean " ++ m ++ "?") ≠ "" := by
  intro h
  have hlen := congrArg String.length h
  rw [String.length_append, String.length_append] at hlen
  have h1 : (", did you mean ").length = 15 := by rfl
  have h2 : ("?").length = 1 := by rfl
  have h3 : ("").length = 0 := by rfl
  omega

set_option maxRecDepth 200000 in
/-- C5, corrected: `did_you_mean` attaches a single suggestion, and it
does so exactly when some known reference name has `difflib` similarity
ratio ≥ 0.75 to the missing symbol, the name being `seq1` and the
symbol `seq2` (`similarOK`); but for `@foo` against the table holding
only the label `foe` (plus the built-in constants) the ratio of
`foe`/`foo` is 2/3 < 0.75, so the error message is
`reference to undefined location foo` with no suggestion; names with
ratio ≥ 0.75 do produce a suggestion — `fool` for `foo`, and (an
asymmetric case: the matching total of `seq1 = baab` against
`seq2 = abab` is 3, while the reverse order gives 2) `baab` for
`abab`. -/
theorem claim_C5_amended :
    (∀ name (tbl : ReferenceTable), didYouMean name tbl = "" ↔
      ∀ k ∈ tbl.map Prod.fst, similarOK name k = false) ∧
    (∀ name (tbl : ReferenceTable) m,
      getCloseMatches1 name (tbl.map Prod.fst) = some m →
      m ∈ tbl.map Prod.fst ∧ similarOK name m = true ∧
      didYouMean name tbl = ", did you mean " ++ m ++ "?") ∧
    UnresolvedAddressValue.resolve ⟨0, .JUMP, "foo"⟩ (CONSTANTS ++ [("foe", 16)]) =
      .error (.assemblyError "reference to undefined location foo") ∧
    similarOK "foo" "foe" = false ∧
    didYouMean "foo" (CONSTANTS ++ [("fool", 16)]) = ", did you mean fool?" ∧
    matchingTotal "baab".toList "abab".toList = 3 ∧
    matchingTotal "abab".toList "baab".toList = 2 ∧
    didYouMean "abab" (CONSTANTS ++ [("baab", 16)]) = ", did you mean baab?" := by
  refine ⟨?_, ?_, by rfl, by rfl, by rfl, by rfl, by rfl, by rfl⟩
  · intro name tbl
    unfold didYouMean
    cases h : getCloseMatches1 name (tbl.map Prod.fst) with
    | none =>
      unfold getCloseMatches1 at h
      rw [nlargest1_none_iff] at h
      simp only [List.filter_eq_nil_iff] at h
      constructor
      · intro _ k hk
        have := h k hk
        simp at this
        exact this
      · intro _; rfl
    | some m =>
      constructor
      · intro hcontra
        exact absurd hcontra (didYouMean_some_ne_empty m)
      · intro hall
        unfold getCloseMatches1 at h
        have hm := nlargest1_mem _ _ _ h
        rw [List.mem_filter] at hm
        have := hall m hm.1
        rw [this] at hm
        simp at hm
  · intro name tbl m h
    have hm := nlargest1_mem _ _ _ h
    rw [List.mem_filter] at hm
    refine ⟨hm.1, hm.2, ?_⟩
    unfold didYouMean
    rw [h]

set_option maxRecDepth 200000 in
/-- C5, counterexample to the claim as stated: with only the label
`foe` known, resolving `foo` produces the bare error message — it does
not contain `did you mean foe?`. -/
theorem claim_C5_counterexample :
    UnresolvedAddressValue.resolve ⟨0, .JUMP, "foo"⟩ (CONSTANTS ++ [("foe", 16)]) =
      .error (.assemblyError "reference to undefined location foo") ∧
    strContainsSub "reference to undefined location foo" "did you mean foe?" = false := by
  exact ⟨by rfl, by rfl⟩

set_option maxRecDepth 200000 in
/-- Witness for `claim_C5_amended`: the table with label `fool` makes
`get_close_matches` return `fool` and the suffix is attached. -/
theorem claim_C5_witness :
    "fool" ∈ (CONSTANTS ++ [("fool", 16)]).map Prod.fst ∧
    similarOK "foo" "fool" = true ∧
    didYouMean "foo" (CONSTANTS ++ [("fool", 16)]) = ", did you mean " ++ "fool" ++ "?" :=
  claim_C5_amended.2.1 "foo" (CONSTANTS ++ [("fool", 16)]) "fool" (by rfl)

/-! ### Claim C7: error classification of the value parser -/

/-- Two inclusive address ranges are disjoint. -/
def rangesDisjoint (p q : Nat × Nat) : Prop :=
  p.2 < q.1 ∨ q.2 < p.1

instance (p q : Nat × Nat) : Decidable (rangesDisjoint p q) := by
  unfold rangesDisjoint
  infer_instance

/-- The address ranges of all regions of a region table. -/
def rngs (rt : RegionTable) : List (Nat × Nat) :=
  rt.map (fun p => (p.2.start, p.2.stop))

/-- The reachable shape of `used_space`: well-formed ranges that
together cover exactly `[0, M]`. -/
def usedContig (used : List (Nat × Nat)) (M : Nat) : Prop :=
  (∀ p ∈ used, p.1 ≤ p.2 ∧ p.2 ≤ M) ∧
  (∀ n, n ≤ M → ∃ p, p ∈ used ∧ p.1 ≤ n ∧ n ≤ p.2)

theorem rangesDisjoint_symm : Symmetric rangesDisjoint := by
  intro p q h
  rcases h with h | h
  · exact Or.inr h
  · exact Or.inl h

/-- `find?` only depends on the predicate's values on the list. -/
theorem find?_congr {α : Type} (p q : α → Bool) :
    ∀ l : List α, (∀ x ∈ l, p x = q x) → l.find? p = l.find? q := by
  intro l
  induction l with
  | nil => intro _; rfl
  | cons x xs ih =>
    intro h
    have hx := h x (List.mem_cons_self _ _)
    rw [List.find?_cons, List.find?_cons, hx]
    cases q x with
    | true => rfl
    | false => exact ih (fun y hy => h y (List.mem_cons_of_mem _ hy))

/-- On a contiguous `used_space` the code's endpoint test agrees with
the spec's full-overlap test on every candidate slot. -/
theorem slot_pred_agree (used : List (Nat × Nat)) (M size : Nat)
    (hc : usedContig used M) (hsz : 1 ≤ size) (x : Nat × Nat) (hx : x ∈ used) :
    (! inUsedSpace used (x.2 + 1) (x.2 + size)) =
      slotOKSpec used (x.2 + 1) (x.2 + size) := by
  obtain ⟨hwf, hcov⟩ := hc
  have hxM : x.2 ≤ M := (hwf x hx).2
  rcases Nat.lt_or_ge x.2 M with hlt | hge
  · -- the slot starts inside the covered block: both tests reject
    obtain ⟨p, hp, hp1, hp2⟩ := hcov (x.2 + 1) (by omega)
    have hL : inUsedSpace used (x.2 + 1) (x.2 + size) = true := by
      unfold inUsedSpace
      simp only [Bool.or_eq_true, List.any_eq_true, decide_eq_true_eq]
      exact Or.inr ⟨p, hp, Or.inl ⟨hp1, hp2⟩⟩
    have hR : slotOKSpec used (x.2 + 1) (x.2 + size) = false := by
      rw [Bool.eq_false_iff]
      intro hcontra
      unfold slotOKSpec at hcontra
      simp only [Bool.and_eq_true, List.all_eq_true, decide_eq_true_eq] at hcontra
      have := hcontra.2 p hp
      omega
    rw [hL, hR]
    rfl
  · -- the slot lies entirely above the covered block
    have hxeq : x.2 = M := by omega
    have hnone : ∀ p ∈ used,
        ¬ ((p.1 ≤ x.2 + 1 ∧ x.2 + 1 ≤ p.2) ∨ (p.1 ≤ x.2 + size ∧ x.2 + size ≤ p.2)) := by
      intro p hp
      have := (hwf p hp).2
      omega
    by_cases hbound : x.2 + size ≤ 0xfff
    · have hL : inUsedSpace used (x.2 + 1) (x.2 + size) = false := by
        rw [Bool.eq_false_iff]
        intro hcontra
        unfold inUsedSpace at hcontra
        simp only [Bool.or_eq_true, List.any_eq_true, decide_eq_true_eq] at hcontra
        rcases hcontra with h | ⟨p, hp, hcase⟩
        · omega
        · exact hnone p hp hcase
      have hR : slotOKSpec used (x.2 + 1) (x.2 + size) = true := by
        unfold slotOKSpec
        simp only [Bool.and_eq_true, List.all_eq_true, decide_eq_true_eq]
        refine ⟨⟨by omega, by omega⟩, ?_⟩
        intro p hp
        have := (hwf p hp).2
        omega
      rw [hL, hR]
      rfl
    · have hL : inUsedSpace used (x.2 + 1) (x.2 + size) = true := by
        unfold inUsedSpace
        simp only [Bool.or_eq_true, List.any_eq_true, decide_eq_true_eq]
        exact Or.inl (by omega)
      have hR : slotOKSpec used (x.2 + 1) (x.2 + size) = false := by
        rw [Bool.eq_false_iff]
        intro hcontra
        unfold slotOKSpec at hcontra
        simp only [Bool.and_eq_true, List.all_eq_true, decide_eq_true_eq] at hcontra
        omega
      rw [hL, hR]
      rfl

/-- On a contiguous `used_space` a successful `find_free_space` returns
the (unique) slot right after the covered block, within bounds, and the
spec-side search returns the same slot. -/
theorem findFreeSpace_contig (used : List (Nat × Nat)) (M size s e : Nat)
    (hc : usedContig used M) (hsz : 1 ≤ size)
    (h : findFreeSpace used size = .ok (s, e)) :
    s = M + 1 ∧ e = M + size ∧ e ≤ 0xfff ∧
    findFreeSpaceSpec used size = .ok (s, e) := by
  unfold findFreeSpace at h
  cases hf : used.find? (fun x => ! inUsedSpace used (x.2 + 1) (x.2 + size)) with
  | none => rw [hf] at h; exact absurd h (by simp)
  | some x =>
    rw [hf] at h
    injection h with hpair
    have hs : s = x.2 + 1 := by
      have := congrArg Prod.fst hpair; simpa using this.symm
    have he : e = x.2 + size := by
      have := congrArg Prod.snd hpair; simpa using this.symm
    have hmem := List.mem_of_find?_eq_some hf
    have hpred := List.find?_some hf
    rw [Bool.not_eq_true'] at hpred
    obtain ⟨hwf, hcov⟩ := hc
    have hxM : x.2 ≤ M := (hwf x hmem).2
    have hxeq : x.2 = M := by
      by_contra hne
      have hlt : x.2 < M := by omega
      obtain ⟨p, hp, hp1, hp2⟩ := hcov (x.2 + 1) (by omega)
      rw [Bool.eq_false_iff] at hpred
      apply hpred
      unfold inUsedSpace
      simp only [Bool.or_eq_true, List.any_eq_true, decide_eq_true_eq]
      exact Or.inr ⟨p, hp, Or.inl ⟨hp1, hp2⟩⟩
    have hebound : e ≤ 0xfff := by
      by_contra hcontra
      rw [Bool.eq_false_iff] at hpred
      apply hpred
      unfold inUsedSpace
      simp only [Bool.or_eq_true, List.any_eq_true, decide_eq_true_eq]
      exact Or.inl (Or.inr (by omega))
    refine ⟨by omega, by omega, hebound, ?_⟩
    unfold findFreeSpaceSpec
    rw [← find?_congr _ _ used (slot_pred_agree used M size ⟨hwf, hcov⟩ hsz)]
    rw [hf]
    rw [hs, he]

/-- Appending the accepted slot keeps `used_space` contiguous for the
new maximal end. -/
theorem usedContig_append (used : List (Nat × Nat)) (M size : Nat)
    (hc : usedContig used M) (hsz : 1 ≤ size) :
    usedContig (used ++ [(M + 1, M + size)]) (M + size) := by
  obtain ⟨hwf, hcov⟩ := hc
  constructor
  · intro p hp
    rcases List.mem_append.mp hp with h | h
    · have := hwf p h
      exact ⟨this.1, by omega⟩
    · simp at h
      rw [h]
      exact ⟨by omega, by omega⟩
  · intro n hn
    rcases le_or_lt n M with h | h
    · obtain ⟨p, hp, h1, h2⟩ := hcov n h
      exact ⟨p, List.mem_append_left _ hp, h1, h2⟩
    · refine ⟨(M + 1, M + size), List.mem_append_right _ (by simp), by omega, by omega⟩

/-- Membership in the range list of a dictionary update. -/
theorem rngs_dictSet_mem (rt : RegionTable) (k : String) (v : Region) :
    ∀ q ∈ rngs (dictSet rt k v), q = (v.start, v.stop) ∨ q ∈ rngs rt := by
  intro q hq
  unfold rngs at hq
  rw [List.mem_map] at hq
  obtain ⟨entry, hentry, hrange⟩ := hq
  rcases dictSet_mem rt k v entry hentry with h | h
  · left; rw [← hrange, h]
  · right
    unfold rngs
    rw [List.mem_map]
    exact ⟨entry, h, hrange⟩

/-- A dictionary update with a fresh range keeps the range list
duplicate-free. -/
theorem rngs_dictSet_nodup (k : String) (v : Region) :
    ∀ rt : RegionTable, (rngs rt).Nodup → (v.start, v.stop) ∉ rngs rt →
    (rngs (dictSet rt k v)).Nodup := by
  intro rt
  induction rt with
  | nil => intro _ _; simp [dictSet, rngs]
  | cons p rest ih =>
    intro hnd hfresh
    unfold rngs at hnd hfresh
    simp only [List.map_cons, List.nodup_cons, List.mem_cons, not_or] at hnd hfresh
    by_cases hk : p.1 == k
    · unfold dictSet rngs
      rw [if_pos hk]
      simp only [List.map_cons, List.nodup_cons]
      constructor
      · intro hcontra
        exact hfresh.2 hcontra
      · exact hnd.2
    · unfold dictSet rngs
      rw [if_neg hk]
      simp only [List.map_cons, List.nodup_cons]
      constructor
      · intro hcontra
        rcases rngs_dictSet_mem rest k v _ hcontra with h | h
        · exact hfresh.1 h.symm
        · exact hnd.1 h
      · exact ih hnd.2 hfresh.2

/-- Pairwise disjointness transfers from `used_space` to any
duplicate-free sublist of ranges. -/
theorem pairwise_from_used (used : List (Nat × Nat)) (hused : List.Pairwise rangesDisjoint used) :
    ∀ l : List (Nat × Nat), l.Nodup → (∀ q ∈ l, q ∈ used) →
    List.Pairwise rangesDisjoint l := by
  intro l
  induction l with
  | nil => intro _ _; exact List.Pairwise.nil
  | cons q rest ih =>
    intro hnd hsub
    rw [List.nodup_cons] at hnd
    refine List.Pairwise.cons ?_ (ih hnd.2 (fun r hr => hsub r (List.mem_cons_of_mem _ hr)))
    intro r hr
    have hq : q ∈ used := hsub q (List.mem_cons_self _ _)
    have hrused : r ∈ used := hsub r (List.mem_cons_of_mem _ hr)
    have hne : q ≠ r := fun hcontra => hnd.1 (hcontra ▸ hr)
    exact List.Pairwise.forall rangesDisjoint_symm hused hq hrused hne

/-- The planner's placement loop: on any contiguous state it equals the
spec-side loop, and it preserves disjointness of the table's ranges. -/
theorem placeSections_props :
    ∀ (sections : List (String × Nat)) (used : List (Nat × Nat)) (M : Nat)
      (rt rt' : RegionTable),
      (∀ p ∈ sections, 1 ≤ p.2) →
      usedContig used M →
      List.Pairwise rangesDisjoint used →
      (∀ q ∈ rngs rt, q ∈ used) →
      (rngs rt).Nodup →
      placeSections used rt sections = .ok rt' →
      placeSectionsSpec used rt sections = .ok rt' ∧
      List.Pairwise rangesDisjoint (rngs rt') := by
  intro sections
  induction sections with
  | nil =>
    intro used M rt rt' _ _ hpw hsub hnd h
    injection h with h'
    subst h'
    exact ⟨rfl, pairwise_from_used used hpw _ hnd hsub⟩
  | cons sec rest ih =>
    intro used M rt rt' hsz hc hpw hsub hnd h
    obtain ⟨name, size⟩ := sec
    have hsz1 : 1 ≤ size := hsz _ (List.mem_cons_self _ _)
    unfold placeSections at h
    cases hf : findFreeSpace used size with
    | error e => rw [hf] at h; exact absurd h (by simp [Bind.bind, Except.bind])
    | ok slot =>
      obtain ⟨s, e⟩ := slot
      rw [hf] at h
      simp only [Bind.bind, Except.bind] at h
      obtain ⟨hse, hee, hebound, hfspec⟩ := findFreeSpace_contig used M size s e hc hsz1 hf
      subst hse hee
      have hfresh : ((M + 1 : Nat), M + size) ∉ used := by
        intro hcontra
        have := (hc.1 _ hcontra).2
        omega
      have hstep := ih (used ++ [(M + 1, M + size)]) (M + size)
        (dictSet rt name ⟨"user", M + 1, M + size, 0⟩) rt'
        (fun p hp => hsz p (List.mem_cons_of_mem _ hp))
        (usedContig_append used M size hc hsz1)
        (by
          rw [List.pairwise_append]
          refine ⟨hpw, by simp, ?_⟩
          intro a ha b hb
          simp at hb
          rw [hb]
          left
          have := (hc.1 a ha).2
          omega)
        (by
          intro q hq
          rcases rngs_dictSet_mem rt name ⟨"user", M + 1, M + size, 0⟩ q hq with h' | h'
          · rw [h']
            exact List.mem_append_right _ (by simp)
          · exact List.mem_append_left _ (hsub q h'))
        (by
          refine rngs_dictSet_nodup name ⟨"user", M + 1, M + size, 0⟩ rt hnd ?_
          intro hcontra
          exact hfresh (hsub _ hcontra))
        h
      refine ⟨?_, hstep.2⟩
      unfold placeSectionsSpec
      rw [hfspec]
      simp only [Bind.bind, Except.bind]
      exact hstep.1

/-- Every section size counted by `get_section_sizes` is at least 1. -/
theorem getSectionSizes_pos :
    ∀ (items : List Item) (p : String × Nat), p ∈ getSectionSizes items → 1 ≤ p.2 := by
  have key : ∀ (items : List Item) (acc : List (String × Nat)),
      (∀ p ∈ acc, 1 ≤ p.2) →
      ∀ p ∈ items.foldl
        (fun sections item =>
          match item with
          | .uval _ => sections
          | .inst i => dictSet sections i.sectionName ((sections.lookup i.sectionName).getD 0 + 1)
          | .dir d => dictSet sections d.sectionName ((sections.lookup d.sectionName).getD 0 + 1)
          | _ => sections)
        acc, 1 ≤ p.2 := by
    intro items
    induction items with
    | nil => intro acc hacc p hp; exact hacc p hp
    | cons item rest ih =>
      intro acc hacc p hp
      rw [List.foldl_cons] at hp
      refine ih _ ?_ p hp
      cases item with
      | uval u => exact hacc
      | inst i =>
        intro q hq
        rcases dictSet_mem acc i.sectionName _ q hq with h | h
        · omega
        · exact hacc q h
      | dir d =>
        intro q hq
        rcases dictSet_mem acc d.sectionName _ q hq with h | h
        · omega
        · exact hacc q h
      | lbl l => exact hacc
      | uconst u => exact hacc
      | aval a => exact hacc
  intro items p hp
  exact key items [] (by simp) p hp

/-- C4, confirmed: for the pre-registered region table and any user
sections the planner accepts, the address ranges of all regions in the
resulting table are pairwise disjoint, and the whole run coincides with
the spec-side planner that places each section at the first slot
`[end+1, end+size]` after an existing used range that lies within
`[0, 0xFFF]` and overlaps no used range (section sizes are at least 1,
as `get_section_sizes` guarantees). -/
theorem claim_C4_thm (sections : List (String × Nat)) (rt' : RegionTable)
    (hsz : ∀ p ∈ sections, 1 ≤ p.2)
    (h : assignSections REGIONS sections = .ok rt') :
    List.Pairwise rangesDisjoint (rngs rt') ∧
    assignSectionsSpec REGIONS sections = .ok rt' ∧
    (∀ (items : List Item) (p : String × Nat), p ∈ getSectionSizes items → 1 ≤ p.2) := by
  unfold assignSections at h
  have hseed : seedUsed [] REGIONS = .ok [(0x008, 0x00f), (0x000, 0x007)] := by rfl
  rw [hseed] at h
  simp only [Bind.bind, Except.bind] at h
  have hcontig : usedContig [(0x008, 0x00f), (0x000, 0x007)] 0x00f := by
    constructor
    · intro p hp
      simp at hp
      rcases hp with h' | h' <;> (rw [h']; omega)
    · intro n hn
      rcases le_or_lt n 7 with h' | h'
      · exact ⟨(0x000, 0x007), by simp, by omega, by omega⟩
      · exact ⟨(0x008, 0x00f), by simp, by omega, by omega⟩
  have hprops := placeSections_props sections [(0x008, 0x00f), (0x000, 0x007)] 0x00f
    REGIONS rt' hsz hcontig (by decide)
    (by decide) (by decide) h
  refine ⟨hprops.2, ?_, getSectionSizes_pos⟩
  unfold assignSectionsSpec
  rw [hseed]
  simp only [Bind.bind, Except.bind]
  exact hprops.1

/-- Witness for `claim_C4_thm`: one user section of three cells lands at
`[0x010, 0x012]`, disjoint from both reserved regions, and the spec-side
planner agrees. -/
theorem claim_C4_witness :
    List.Pairwise rangesDisjoint (rngs
      [("configuration", ⟨"reserved", 0x008, 0x00f, 8⟩),
       ("vectors", ⟨"reserved", 0x000, 0x007, 8⟩),
       ("code", ⟨"user", 0x010, 0x012, 0⟩)]) ∧
    assignSectionsSpec REGIONS [("code", 3)] = .ok
      [("configuration", ⟨"reserved", 0x008, 0x00f, 8⟩),
       ("vectors", ⟨"reserved", 0x000, 0x007, 8⟩),
       ("code", ⟨"user", 0x010, 0x012, 0⟩)] ∧
    (∀ (items : List Item) (p : String × Nat), p ∈ getSectionSizes items → 1 ≤ p.2) :=
  claim_C4_thm [("code", 3)]
    [("configuration", ⟨"reserved", 0x008, 0x00f, 8⟩),
     ("vectors", ⟨"reserved", 0x000, 0x007, 8⟩),
     ("code", ⟨"user", 0x010, 0x012, 0⟩)]
    (by decide) (by rfl)

end SMA
